import Mathlib

/-!
Verification of the data-layout and relocation core of the static linker
(`src/cmd/ld/data.c`): the symbol sorter, the byte encoder, the relocation
resolver, the Windows/PE dynamic-import stub emitter, the GC descriptor
synthesis, and the `dodata` layout walk are embedded shallowly and the
specified properties are proved or refuted over the embedding.
-/

namespace Linker

/-! ## Symbol kinds and other external constants

Modelled from the spec: the symbol kind enumeration lives in the linker's
shared header (not part of the sources under verification).  Per spec §3 the
numeric ordering is load-bearing; the values below respect every range
comparison performed in `data.c` (`STEXT < t && t < SXREF`, `t < SELFSECT`,
`t < SNOPTRDATA`, `t < SDATARELRO`, `t < SBSS`, `t < SNOPTRBSS`,
`t < STYPELINK`, `t < SPCLNTAB`, `t < SELFROSECT`), `SSUB` is a high tag bit
and `SMASK` masks it off. -/

def Sxxx : Nat := 0
def STEXT : Nat := 1
def SELFRXSECT : Nat := 2
def STYPE : Nat := 3
def SSTRING : Nat := 4
def SGOSTRING : Nat := 5
def SRODATA : Nat := 6
def STYPELINK : Nat := 7
def SGCDATA : Nat := 8
def SGCBSS : Nat := 9
def SSYMTAB : Nat := 10
def SPCLNTAB : Nat := 11
def SELFROSECT : Nat := 12
def SMACHOPLT : Nat := 13
def SELFSECT : Nat := 14
def SMACHO : Nat := 15
def SMACHOGOT : Nat := 16
def SNOPTRDATA : Nat := 17
def SDATARELRO : Nat := 18
def SDATA : Nat := 19
def SWINDOWS : Nat := 20
def SBSS : Nat := 21
def SNOPTRBSS : Nat := 22
def STLSBSS : Nat := 23
def SXREF : Nat := 24
def SFILE : Nat := 25
def SCONST : Nat := 26
def SDYNIMPORT : Nat := 27
def SHOSTOBJ : Nat := 28
def SSUB : Nat := 256
def SMASK : Nat := 255

/-- Modelled from the spec: relocation type tags (spec §3: `ADDR`, `PCREL`,
`SIZE`, architecture-specific tags are `≥ 256`).  The concrete values come
from an architecture header outside the verified sources; all that `data.c`
relies on is that they are distinct and below 256. -/
def D_ADDR : Nat := 100
/-- Modelled from the spec: the `PCREL` relocation type tag (see `D_ADDR`). -/
def D_PCREL : Nat := 101
/-- Modelled from the spec: the `SIZE` relocation type tag (see `D_ADDR`). -/
def D_SIZE : Nat := 102

/-- Modelled from the spec: GC opcodes (`GC_CALL`, `GC_APTR`, `GC_END`) are
binary constants consumed by the runtime (spec §6); the claims depend only on
their identity, not their values. -/
def GC_END : Nat := 0
/-- Modelled from the spec: the `GC_APTR` opcode (see `GC_END`). -/
def GC_APTR : Nat := 2
/-- Modelled from the spec: the `GC_CALL` opcode (see `GC_END`). -/
def GC_CALL : Nat := 5

/-- Modelled from the spec: the `HEADTYPE` code for Windows/PE images; only
equality with it matters in `data.c`. -/
def Hwindows : Nat := 10

/-- ASCII code of the architecture character `'6'` (amd64). -/
def thechar6 : Nat := 54
/-- ASCII code of the architecture character `'8'` (386). -/
def thechar8 : Nat := 56

/-- The literal `".string"` compared against symbol names in `gcaddsym`. -/
def dotString : String := ".string"

/-! ## Data model (spec §3, `Sym`/`Reloc` from the linker headers) -/

/-- A relocation record: `{off, siz, type, sym, add}`.  The target is an
optional symbol id into the store (`none` is the null symbol `S`). -/
structure Reloc where
  off : Int := 0
  siz : Nat := 0
  rtype : Nat := 0
  sym : Option Nat := none
  add : Int := 0
deriving Repr, DecidableEq

/-- A symbol.  The payload `p` models the byte buffer `s->p[0..s->np)`; its
length plays the role of `np` (`symgrow` keeps `np` equal to the buffer's
initialized length).  `size` is the declared size, which may differ from the
payload length in both directions. -/
structure Sym where
  name : String := ""
  type : Nat := 0
  size : Int := 0
  value : Int := 0
  align : Int := 0
  reachable : Bool := false
  special : Bool := false
  gotype : Option Nat := none
  outer : Option Nat := none
  plt : Int := 0
  got : Int := 0
  dynimpname : Option String := none
  dynexport : Bool := false
  rel_ro : Bool := false
  sect : Option Nat := none
  p : List Nat := []
  r : List Reloc := []
deriving Repr, DecidableEq

/-- The symbol store: symbol ids (standing for `Sym*` pointers) to symbols. -/
def Store : Type := Nat → Sym

/-- Pointwise store update (a field assignment through a `Sym*`). -/
def updStore (st : Store) (i : Nat) (s : Sym) : Store :=
  fun j => if j = i then s else st j

/-- Linker configuration: target parameters, endianness permutation tables
(`inuxi1/2/4/8`, spec §6), and the architecture-specific external
collaborators (`archreloc`, `adddynrel`, `adddynrela`, `decodetype_gc`),
which spec §1 places out of scope and which are therefore opaque
parameters. -/
structure Config where
  ptrSize : Nat := 8
  thechar : Nat := thechar6
  isobj : Bool := false
  flag_shared : Bool := false
  headtype : Nat := 0
  debug_d : Bool := false
  iself : Bool := false
  inuxi1 : List Nat := [0]
  inuxi2 : List Nat := [0, 1]
  inuxi4 : List Nat := [0, 1, 2, 3]
  inuxi8 : List Nat := [0, 1, 2, 3, 4, 5, 6, 7]
  relId : Nat := 1000
  gotId : Nat := 1001
  archreloc : Reloc → Int → Option Int := fun _ _ => none
  adddynrel : Store → Nat → Reloc → Store := fun st _ _ => st
  adddynrela : Store → Nat → Reloc → Store := fun st _ _ => st
  decodegc : Nat → Nat := fun t => t

/-! ## Byte-level write machinery

The C writers store a value's host bytes through a permutation table:
`s->p[off+i] = cast[tbl[i]]` where `cast` is the little-endian (host) byte
decomposition of the value.  We represent a sequence of byte stores as a list
of `(position, byte)` pairs applied left to right. -/

/-- Host byte `j` of a value: `((uchar*)&v)[j]` on the little-endian host. -/
def hostByte (v j : Nat) : Nat := v / 256 ^ j % 256

/-- The byte stores performed by the loop
`for(i) p[off+i] = cast[tbl[i]]`. -/
def tblWrites (off : Nat) (tbl : List Nat) (v : Nat) : List (Nat × Nat) :=
  match tbl with
  | [] => []
  | t :: ts => (off, hostByte v t) :: tblWrites (off + 1) ts v

/-- Apply byte stores in order; a store outside the buffer is dropped
(in C it would be out of bounds). -/
def applyWrites (ws : List (Nat × Nat)) (p : List Nat) : List Nat :=
  ws.foldl (fun q w => q.set w.1 w.2) p

/-- Decode `tbl.length` payload bytes at `off` through the same permutation
table: the byte at `off+i` carries weight `256 ^ tbl[i]`. -/
def readVia (p : List Nat) (off : Nat) (tbl : List Nat) : Nat :=
  match tbl with
  | [] => 0
  | t :: ts => p.getD off 0 * 256 ^ t + readVia p (off + 1) ts

/-- `symgrow(s, siz)`: extend the payload with zero bytes to length `siz`
(no-op when already long enough); capacity management is not observable. -/
def symgrowP (p : List Nat) (siz : Nat) : List Nat :=
  if siz ≤ p.length then p else p ++ List.replicate (siz - p.length) 0

/-- The permutation table `setuintxx` uses for a given width. -/
def uintTable (cfg : Config) (wid : Nat) : List Nat :=
  if wid = 1 then cfg.inuxi1
  else if wid = 2 then cfg.inuxi2
  else if wid = 4 then cfg.inuxi4
  else if wid = 8 then cfg.inuxi8
  else []

/-- The value actually stored for a width: widths 1/2/4 go through the
`int32 fl = v` truncation, width 8 through the full 64-bit `vlong o = v`. -/
def uintVal (v wid : Nat) : Nat :=
  if wid = 8 then v % 2 ^ 64 else v % 2 ^ 32

/-- The byte stores of `setuintxx`'s switch for a width (empty for a width
the switch does not handle). -/
def uintWrites (cfg : Config) (off : Nat) (v : Nat) (wid : Nat) : List (Nat × Nat) :=
  tblWrites off (uintTable cfg wid) (uintVal v wid)

/-- Clamp an `Int` to the bits of a `uint64` (a C value cast). -/
def intToU64 (i : Int) : Nat := (i.emod (2 ^ 64)).toNat

/-- Clamp an `Int` to the bits of a `uint32`/`int32` (the `fl = o` cast). -/
def intToU32 (i : Int) : Nat := (i.emod (2 ^ 32)).toNat

/-! ## The byte encoder (`setuintxx` and the `add*` appenders) -/

/-- `setuintxx(s, off, v, wid)`: promote a fresh symbol to `DATA`, mark it
reachable, grow `size` (and with it the payload) when `size < off+wid`, then
store the value's bytes through the width's permutation table.  Note the
payload is *not* grown when `size ≥ off+wid` already. -/
def setuintxx (cfg : Config) (s : Sym) (off : Int) (v : Nat) (wid : Nat) : Sym :=
  let s := {s with type := if s.type = 0 then SDATA else s.type, reachable := true}
  let s :=
    if s.size < off + wid then
      {s with size := off + wid, p := symgrowP s.p (off + wid).toNat}
    else s
  {s with p := applyWrites (uintWrites cfg off.toNat v wid) s.p}

/-- `adduintxx(s, v, wid)`: `setuintxx` at offset `s->size` (append). -/
def adduintxx (cfg : Config) (s : Sym) (v : Nat) (wid : Nat) : Sym :=
  setuintxx cfg s s.size v wid

/-- `addaddrplus(s, t, add)`: append a pointer-sized zeroed slot and record a
`D_ADDR` relocation to `t`. -/
def addaddrplus (cfg : Config) (s : Sym) (t : Nat) (add : Int) : Sym :=
  let s := {s with type := if s.type = 0 then SDATA else s.type, reachable := true}
  let i := s.size
  let s := {s with size := s.size + cfg.ptrSize,
                   p := symgrowP s.p (s.size + cfg.ptrSize).toNat}
  {s with r := s.r ++ [{off := i, siz := cfg.ptrSize, rtype := D_ADDR, sym := some t, add := add}]}

/-- `addaddrplus4(s, t, add)`: the 4-byte variant used by the 64-bit PE stub. -/
def addaddrplus4 (s : Sym) (t : Nat) (add : Int) : Sym :=
  let s := {s with type := if s.type = 0 then SDATA else s.type, reachable := true}
  let i := s.size
  let s := {s with size := s.size + 4, p := symgrowP s.p (s.size + 4).toNat}
  {s with r := s.r ++ [{off := i, siz := 4, rtype := D_ADDR, sym := some t, add := add}]}

/-- `addpcrelplus(s, t, add)`: append a 4-byte zeroed slot and record a
`D_PCREL` relocation to `t`. -/
def addpcrelplus (s : Sym) (t : Nat) (add : Int) : Sym :=
  let s := {s with type := if s.type = 0 then SDATA else s.type, reachable := true}
  let i := s.size
  let s := {s with size := s.size + 4, p := symgrowP s.p (s.size + 4).toNat}
  {s with r := s.r ++ [{off := i, siz := 4, rtype := D_PCREL, sym := some t, add := add}]}

/-- The bytes `adduintxx` appends when the payload length equals `size`:
the width's byte stores applied to a zero-filled block. -/
def encW (cfg : Config) (wid : Nat) (v : Nat) : List Nat :=
  applyWrites (uintWrites cfg 0 v wid) (List.replicate wid 0)

/-! ## The sorter (`datcmp` / `datsort`, spec §4.2)

The C `datsort` is a divide-and-conquer merge sort on the intrusive `next`
list.  The slow/fast pointer split takes the first `⌈n/2⌉` nodes; the merge
takes from the left list exactly when `datcmp < 0`.  Both are written with a
structural fuel argument (bounded by the list length, which every call
respects) so that they compute by kernel reduction. -/

/-- `strcmp` on the character lists of two names: the sign is all that
`datcmp` uses. -/
def strcmpL : List Char → List Char → Int
  | [], [] => 0
  | [], _ :: _ => -1
  | _ :: _, [] => 1
  | a :: as, b :: bs =>
    if a.toNat < b.toNat then -1
    else if b.toNat < a.toNat then 1
    else strcmpL as bs

/-- `strcmp(s1->name, s2->name)`. -/
def strcmpS (a b : String) : Int := strcmpL a.data b.data

/-- `datcmp(s1, s2)`: compare by kind (numeric difference), then size
(±1), then name (`strcmp`). -/
def datcmp (s1 s2 : Sym) : Int :=
  if s1.type ≠ s2.type then (s1.type : Int) - (s2.type : Int)
  else if s1.size ≠ s2.size then (if s1.size < s2.size then -1 else 1)
  else strcmpS s1.name s2.name

/-- The merge loop of `datsort` (lead element plus copy loop), with fuel. -/
def dmergeAux (cmp : α → α → Int) : Nat → List α → List α → List α
  | 0, xs, ys => xs ++ ys
  | _ + 1, [], ys => ys
  | _ + 1, x :: xs, [] => x :: xs
  | f + 1, x :: xs, y :: ys =>
    if cmp x y < 0 then x :: dmergeAux cmp f xs (y :: ys)
    else y :: dmergeAux cmp f (x :: xs) ys

/-- The recursive split/sort of `datsort`, with fuel.  The slow/fast pointer
walk splits a list of length `n ≥ 2` after its first `(n+1)/2` nodes. -/
def datsortAux (cmp : α → α → Int) : Nat → List α → List α
  | 0, l => l
  | _ + 1, [] => []
  | _ + 1, [x] => [x]
  | f + 1, x :: y :: rest =>
    let l := x :: y :: rest
    let n := (l.length + 1) / 2
    dmergeAux cmp (l.length) (datsortAux cmp f (l.take n)) (datsortAux cmp f (l.drop n))

/-- `datsort` generalized over the comparison (used both on symbol values and,
inside `dodata`, on symbol ids compared through the store). -/
def datsortBy (cmp : α → α → Int) (l : List α) : List α :=
  datsortAux cmp l.length l

/-- `datsort(l)` on symbols. -/
def datsort (l : List Sym) : List Sym := datsortBy datcmp l

/-! ## The relocation resolver (`relocsym` / `reloc`, spec §4.6) -/

/-- The diagnostics `relocsym` can emit, in source order. -/
inductive Diag where
  | invalidReloc
  | notDefined
  | unhandledDyn
  | unreachableSym
  | unknownReloc
  | badRelocSize
deriving Repr, DecidableEq

/-- Modelled from the spec: `symaddr(s)` (spec §4.6 uses it for the resolved
address of a symbol) returns the symbol's assigned `value`; the function
itself lives outside the verified sources. -/
def symaddr (st : Store) (t : Nat) : Int := (st t).value

/-- `symaddr` lifted to an optional target; the C code would dereference a
null pointer here, which no verified path reaches. -/
def symaddrO (st : Store) (t : Option Nat) : Int :=
  match t with
  | some t => symaddr st t
  | none => 0

/-- The C `==` operator as a value (`1` when equal, `0` otherwise); needed to
embed the expression `r->sym->type & SMASK == 0` with C precedence, where
`==` binds tighter than `&`. -/
def cEq (a b : Nat) : Nat := if a = b then 1 else 0

/-- The target type of a relocation (the C code dereferences `r->sym`
unconditionally on the paths that read it; `0` stands in for the unreachable
null case). -/
def targType (st : Store) (r : Reloc) : Nat :=
  match r.sym with
  | some t => (st t).type
  | none => 0

/-- The guard of the "not defined" diagnostic, exactly as the C parses:
`r->sym != S && (r->sym->type & (SMASK == 0) || r->sym->type & (SMASK == SXREF))`. -/
def notDefinedCond (st : Store) (r : Reloc) : Bool :=
  r.sym ≠ none &&
    (targType st r &&& cEq SMASK 0 ≠ 0 || targType st r &&& cEq SMASK SXREF ≠ 0)

/-- `rs = r->sym; while(rs->outer != nil) rs = rs->outer;` — the outermost
ancestor, with fuel (the C loop diverges on a cyclic `outer` chain). -/
def outerRoot (st : Store) : Nat → Nat → Nat
  | 0, t => t
  | f + 1, t =>
    match (st t).outer with
    | none => t
    | some u => outerRoot st f u

/-- Fuel for `outerRoot`: no acyclic `outer` chain over `Nat` ids kept below
this bound is cut short in any run considered here. -/
def outerFuel : Nat := 2 ^ 32

/-- The value `o` computed by `relocsym`'s type switch for one relocation,
together with any diagnostic of the `default` case. -/
def relocO (cfg : Config) (st : Store) (sval : Int) (r : Reloc) : Int × List Diag :=
  if r.rtype = D_ADDR then
    let o := symaddrO st r.sym + r.add
    let o :=
      if cfg.isobj ∧ targType st r ≠ SCONST then
        if cfg.thechar = thechar6 then 0
        else
          let rs := outerRoot st outerFuel (r.sym.getD 0)
          o - symaddr st rs
      else o
    (o, [])
  else if r.rtype = D_PCREL then
    let o := (match r.sym with | some t => symaddr st t | none => 0)
              + r.add - (sval + r.off + r.siz)
    let o :=
      if cfg.isobj ∧ targType st r ≠ SCONST then
        if cfg.thechar = thechar6 then 0 else r.add - r.siz
      else o
    (o, [])
  else if r.rtype = D_SIZE then
    ((match r.sym with | some t => (st t).size | none => 0) + r.add, [])
  else
    if cfg.isobj then (0, [Diag.unknownReloc])
    else
      match cfg.archreloc r sval with
      | some o => (o, [])
      | none => (0, [Diag.unknownReloc])

/-- One iteration of `relocsym`'s relocation loop: the byte stores it
performs on the payload (determined by the store, the symbol's value, and the
payload length `np` — never by payload contents) and the diagnostics it
emits.  The store switch falls through from `default` into `case 4`, so a bad
size still writes 4 bytes after diagnosing. -/
def relocRec (cfg : Config) (st : Store) (sval : Int) (np : Nat) (r : Reloc) :
    List (Nat × Nat) × List Diag :=
  if r.off < 0 ∨ (np : Int) < r.off + r.siz then ([], [Diag.invalidReloc])
  else if notDefinedCond st r then ([], [Diag.notDefined])
  else if 256 ≤ r.rtype then ([], [])
  else
    let d1 : List Diag :=
      if r.sym ≠ none ∧ targType st r = SDYNIMPORT then [Diag.unhandledDyn] else []
    let d2 : List Diag :=
      match r.sym with
      | some t => if (st t).reachable then [] else [Diag.unreachableSym]
      | none => []
    let od := relocO cfg st sval r
    let wd : List (Nat × Nat) × List Diag :=
      if r.siz = 4 then (tblWrites r.off.toNat cfg.inuxi4 (intToU32 od.1), [])
      else if r.siz = 8 then (tblWrites r.off.toNat cfg.inuxi8 (intToU64 od.1), [])
      else (tblWrites r.off.toNat cfg.inuxi4 (intToU32 od.1), [Diag.badRelocSize])
    (wd.1, d1 ++ d2 ++ od.2 ++ wd.2)

/-- All byte stores `relocsym(s)` performs, in order.  The payload length is
constant across the loop (no store changes it), so the per-record stores are
computed against `s.p.length` and concatenated. -/
def relocWritesSym (cfg : Config) (st : Store) (s : Sym) : List (Nat × Nat) :=
  s.r.flatMap (fun r => (relocRec cfg st s.value s.p.length r).1)

/-- All diagnostics `relocsym(s)` emits, in order. -/
def relocsymDiags (cfg : Config) (st : Store) (s : Sym) : List Diag :=
  s.r.flatMap (fun r => (relocRec cfg st s.value s.p.length r).2)

/-- `relocsym(s)`: the symbol with its payload rewritten by the loop's byte
stores; no other field changes. -/
def relocsymP (cfg : Config) (st : Store) (s : Sym) : Sym :=
  {s with p := applyWrites (relocWritesSym cfg st s) s.p}

/-- Run `relocsym` over a list of symbol ids, sequentially updating the
store. -/
def relocAll (cfg : Config) (ids : List Nat) (st : Store) : Store :=
  ids.foldl (fun st i => updStore st i (relocsymP cfg st (st i))) st

/-- `reloc()`: `relocsym` over `textp` then `datap` (spec §4.6). -/
def reloc (cfg : Config) (textp datap : List Nat) (st : Store) : Store :=
  relocAll cfg (textp ++ datap) st

/-- A symbol with its payload bytes blanked but its length kept: two symbols
with equal `strip` differ at most in payload contents, which is exactly what
one pass of the resolver may change. -/
def strip (s : Sym) : Sym := {s with p := List.replicate s.p.length 0}

/-! ## The dynamic-relocation preprocessor (`dynrelocsym`, spec §4.3) -/

/-- One iteration of the Windows/PE loop of `dynrelocsym`: a pending
dynamic import (`plt == -2 && got != -2`) gets its `plt` set to the current
end of `.rel`, the relocation is redirected to `.rel` with that offset as
addend, and the architecture's indirect-jump stub is appended to `.rel`
(`FF 25 <abs32> 90 90` on `'8'`, `FF 24 25 <abs32> 90` otherwise); a target
with `plt ≥ 0` is redirected without emitting anything. -/
def dynrelocsymWinStep (cfg : Config) (st : Store) (r : Reloc) : Store × Reloc :=
  match r.sym with
  | none => (st, r)
  | some t =>
    let targ := st t
    if targ.plt = -2 ∧ targ.got ≠ -2 then
      let pltOff := (st cfg.relId).size
      let st := updStore st t {targ with plt := pltOff}
      let r' := {r with sym := some cfg.relId, add := pltOff}
      let rel := st cfg.relId
      let rel :=
        if cfg.thechar = thechar8 then
          let rel := adduintxx cfg rel 0xff 1
          let rel := adduintxx cfg rel 0x25 1
          let rel := addaddrplus cfg rel t 0
          let rel := adduintxx cfg rel 0x90 1
          adduintxx cfg rel 0x90 1
        else
          let rel := adduintxx cfg rel 0xff 1
          let rel := adduintxx cfg rel 0x24 1
          let rel := adduintxx cfg rel 0x25 1
          let rel := addaddrplus4 rel t 0
          adduintxx cfg rel 0x90 1
      (updStore st cfg.relId rel, r')
    else if 0 ≤ targ.plt then
      (st, {r with sym := some cfg.relId, add := targ.plt})
    else (st, r)

/-- The Windows/PE loop of `dynrelocsym` over a symbol's relocation list,
accumulating the rewritten records. -/
def dynrelocsymWinLoop (cfg : Config) (st : Store) (rs : List Reloc) :
    Store × List Reloc :=
  rs.foldl
    (fun acc r =>
      let res := dynrelocsymWinStep cfg acc.1 r
      (res.1, acc.2 ++ [res.2]))
    (st, [])

/-- The body of the non-Windows loop of `dynrelocsym` for one relocation:
forward dynamic-import and `≥ 256` relocations to `adddynrel`, and in
shared-library mode emit a RELATIVE record (`adddynrela`) for `ADDR`
relocations to local symbols inside the eligible containers, marking the
container `rel_ro` when it is currently writable-data-like. -/
def dynrelocsymElfStep (cfg : Config) (i : Nat) (st : Store) (r : Reloc) : Store :=
  let st :=
    if (r.sym ≠ none ∧ targType st r = SDYNIMPORT) ∨ 256 ≤ r.rtype then
      cfg.adddynrel st i r
    else st
  let localTarg : Bool :=
    match r.sym with
    | some t => (st t).dynimpname = none || (st t).dynexport
    | none => false
  if cfg.flag_shared ∧ r.sym ≠ none ∧ localTarg
      ∧ r.rtype = D_ADDR
      ∧ ((cfg.flag_shared ∧ i = cfg.gotId) ∨ (st i).type = SDATA
          ∨ (st i).type = SGOSTRING ∨ (st i).type = STYPE ∨ (st i).type = SRODATA) then
    let st := cfg.adddynrela st i r
    if (st i).type < SNOPTRDATA then updStore st i {st i with rel_ro := true} else st
  else st

/-- `dynrelocsym(s)`. -/
def dynrelocsym (cfg : Config) (st : Store) (i : Nat) : Store :=
  if cfg.headtype = Hwindows then
    if i = cfg.relId then st
    else
      let res := dynrelocsymWinLoop cfg st (st i).r
      updStore res.1 i {res.1 i with r := res.2}
  else
    let st := updStore st i {st i with rel_ro := false}
    (st i).r.foldl (dynrelocsymElfStep cfg i) st

/-- Modelled from the spec: `elfdynhash` is a file-format writer (spec §1
places "dynamic hash tables" out of scope); it fills dedicated ELF hash
symbols and touches no data-kind state relevant here, so it is the identity
on the store. -/
def elfdynhash (st : Store) : Store := st

/-- `dynreloc()`: skipped under `-d` on non-Windows targets; otherwise
`dynrelocsym` over `textp` then `datap`, then the ELF hash writer. -/
def dynreloc (cfg : Config) (textp datap : List Nat) (st : Store) : Store :=
  if cfg.debug_d ∧ cfg.headtype ≠ Hwindows then st
  else
    let st := (textp ++ datap).foldl (dynrelocsym cfg) st
    if cfg.iself then elfdynhash st else st

/-! ## Layout helpers and GC descriptor synthesis (spec §4.4) -/

/-- Modelled from the spec: `rnd(v, r)` rounds `v` up to a multiple of `r`
(spec §4.4 "round current datsize up"); the function lives in the linker
library outside the verified sources. -/
def rnd (v r : Int) : Int :=
  if r ≤ 0 then v else v + (r - 1) - (v + (r - 1)) % r

/-- `alignsymsize(s)`: implicit alignment-driven size rounding. -/
def alignsymsize (cfg : Config) (s : Int) : Int :=
  if 8 ≤ s then rnd s 8
  else if (cfg.ptrSize : Int) ≤ s then rnd s cfg.ptrSize
  else if 2 < s then rnd s 4
  else s

/-- `aligndatsize(datsize, s)`: explicit alignment, or the lowest set bit of
the aligned size. -/
def aligndatsize (cfg : Config) (datsize : Int) (s : Sym) : Int :=
  if s.align ≠ 0 then rnd datsize s.align
  else
    let t := (alignsymsize cfg s.size).toNat
    if t &&& 1 ≠ 0 then datsize
    else if t &&& 2 ≠ 0 then rnd datsize 2
    else if t &&& 4 ≠ 0 then rnd datsize 4
    else rnd datsize 8

/-- The untyped branch of `gcaddsym`: the C loop
`for(a = -off & (PtrSize-1); a+PtrSize <= size; a += PtrSize)` appending
`GC_APTR, off+a` pairs; it runs `cnt` times with `a = a0 + k*PtrSize`. -/
def gcaptrLoop (cfg : Config) (off a0 : Int) (cnt : Nat) (gc : Sym) : Sym :=
  (List.range cnt).foldl
    (fun (g : Sym) (k : Nat) =>
      adduintxx cfg (adduintxx cfg g GC_APTR cfg.ptrSize)
        (intToU64 (off + a0 + (k : Int) * cfg.ptrSize)) cfg.ptrSize)
    gc

/-- `gcaddsym(gc, s, off)`: skip small or `".string"` symbols; a typed symbol
contributes `GC_CALL`, its offset, and a PC-relative reference to its type's
GC program (plus 4 bytes of alignment on 64-bit); an untyped symbol
conservatively contributes a `GC_APTR` record per pointer-aligned slot via
`gcaptrLoop`, with `a0 = (-off) mod PtrSize` and
`cnt = (size - a0) / PtrSize` iterations (`off` is non-negative in `dodata`
and `PtrSize` a power of two, matching `-off & (PtrSize-1)`). -/
def gcaddsym (cfg : Config) (gc : Sym) (s : Sym) (off : Int) : Sym :=
  if s.size < (cfg.ptrSize : Int) then gc
  else if s.name = dotString then gc
  else
    match s.gotype with
    | some gt =>
      let gc := adduintxx cfg gc GC_CALL cfg.ptrSize
      let gc := adduintxx cfg gc (intToU64 off) cfg.ptrSize
      let gc := addpcrelplus gc (cfg.decodegc gt) (3 * (cfg.ptrSize : Int) + 4)
      if cfg.ptrSize = 8 then adduintxx cfg gc 0 4 else gc
    | none =>
      gcaptrLoop cfg off ((-off).emod cfg.ptrSize)
        (((s.size - (-off).emod cfg.ptrSize) / (cfg.ptrSize : Int)).toNat) gc

/-! ## `dodata` (spec §4.4)

Each section loop of `dodata` has the shape
`for(; s != nil && PRED(s->type); s = s->next) BODY;` over the sorted `datap`
list; `walkWhile` is that schema, threading the store and `datsize` and
returning the unconsumed cursor.  Output sections are identified by small
tags on the symbol's `sect` field (the `Section` records themselves are
consumed only by the out-of-scope file-format writers). -/

def sectWElf : Nat := 1
def sectNoptrdata : Nat := 2
def sectDatarelro : Nat := 3
def sectData : Nat := 4
def sectBss : Nat := 5
def sectNoptrbss : Nat := 6
def sectRodata : Nat := 7
def sectTypelink : Nat := 8
def sectGcdata : Nat := 9
def sectGcbss : Nat := 10
def sectSymtab : Nat := 11
def sectPclntab : Nat := 12
def sectRoElf : Nat := 13

/-- `for(; s != nil && pred(s->type); s = s->next) body;` -/
def walkWhile (pred : Nat → Bool) (body : Store → Int → Nat → Store × Int) :
    Store → Int → List Nat → Store × Int × List Nat
  | st, ds, [] => (st, ds, [])
  | st, ds, i :: rest =>
    if pred (st i).type then
      let res := body st ds i
      walkWhile pred body res.1 res.2 rest
    else (st, ds, i :: rest)

/-- Body of the writable-ELF-sections loop (one section per symbol). -/
def bodyWElf (cfg : Config) (st : Store) (ds : Int) (i : Nat) : Store × Int :=
  let s := st i
  let ds := if s.align ≠ 0 then rnd ds s.align else ds
  (updStore st i {s with sect := some sectWElf, type := SDATA, value := ds},
   ds + rnd s.size cfg.ptrSize)

/-- Body of the `.noptrdata` loop. -/
def bodyNoptrdata (cfg : Config) (st : Store) (ds : Int) (i : Nat) : Store × Int :=
  let s := st i
  let t := alignsymsize cfg s.size
  let ds := aligndatsize cfg ds s
  (updStore st i {s with sect := some sectNoptrdata, type := SDATA, value := ds}, ds + t)

/-- Body of the `.data.rel.ro` loop (shared-library mode only). -/
def bodyDatarelro (cfg : Config) (st : Store) (ds : Int) (i : Nat) : Store × Int :=
  let s := st i
  let ds := if s.align ≠ 0 then rnd ds s.align else ds
  (updStore st i {s with sect := some sectDatarelro, type := SDATA, value := ds},
   ds + rnd s.size cfg.ptrSize)

/-- Body of the `.data` loop: place the symbol and feed `gcdata1`. -/
def bodyData (cfg : Config) (gcd : Nat) (dataStart : Int)
    (st : Store) (ds : Int) (i : Nat) : Store × Int :=
  let s := st i
  let t := alignsymsize cfg s.size
  let ds := aligndatsize cfg ds s
  let s1 := {s with sect := some sectData, type := SDATA, value := ds}
  let st := updStore st i s1
  let st := updStore st gcd (gcaddsym cfg (st gcd) s1 (ds - dataStart))
  (st, ds + t)

/-- Body of the `.bss` loop: place the symbol (kind untouched) and feed
`gcbss1`. -/
def bodyBss (cfg : Config) (gcb : Nat) (bssStart : Int)
    (st : Store) (ds : Int) (i : Nat) : Store × Int :=
  let s := st i
  let t := alignsymsize cfg s.size
  let ds := aligndatsize cfg ds s
  let s1 := {s with sect := some sectBss, value := ds}
  let st := updStore st i s1
  let st := updStore st gcb (gcaddsym cfg (st gcb) s1 (ds - bssStart))
  (st, ds + t)

/-- Body of the `.noptrbss` loop (kind untouched). -/
def bodyNoptrbss (cfg : Config) (st : Store) (ds : Int) (i : Nat) : Store × Int :=
  let s := st i
  let t := alignsymsize cfg s.size
  let ds := aligndatsize cfg ds s
  (updStore st i {s with sect := some sectNoptrbss, value := ds}, ds + t)

/-- Body of the `.rodata` loop. -/
def bodyRodata (cfg : Config) (st : Store) (ds : Int) (i : Nat) : Store × Int :=
  let s := st i
  let ds := if s.align ≠ 0 then rnd ds s.align else ds
  (updStore st i {s with sect := some sectRodata, type := SRODATA, value := ds},
   ds + rnd s.size cfg.ptrSize)

/-- Body of the exact-kind read-only loops (`.typelink`, `.gcdata`, `.gcbss`,
`.gosymtab`, `.gopclntab`). -/
def bodySimpleRO (tag : Nat) (st : Store) (ds : Int) (i : Nat) : Store × Int :=
  let s := st i
  (updStore st i {s with sect := some tag, type := SRODATA, value := ds}, ds + s.size)

/-- Body of the residual read-only-ELF-sections loop. -/
def bodyRoElf (cfg : Config) (st : Store) (ds : Int) (i : Nat) : Store × Int :=
  let s := st i
  let ds := if s.align ≠ 0 then rnd ds s.align else ds
  (updStore st i {s with sect := some sectRoElf, type := SRODATA, value := ds},
   ds + rnd s.size cfg.ptrSize)

/-- The `segdata` half of `dodata`'s section walks: writable ELF sections,
`.noptrdata`, `.data.rel.ro` (shared mode only), `.data` (feeding `gcdata1`,
then `GC_END` and the back-patched length), `.bss` (feeding `gcbss1`,
likewise), `.noptrbss` (which takes everything left). -/
def segdataPhase (cfg : Config) (gcd gcb : Nat) (st : Store) (datap : List Nat) :
    Store × Int × List Nat :=
  let c0 := walkWhile (fun t => decide (t < SELFSECT)) (fun st ds _ => (st, ds)) st 0 datap
  let c1 := walkWhile (fun t => decide (t < SNOPTRDATA)) (bodyWElf cfg) c0.1 c0.2.1 c0.2.2
  let c2 := walkWhile (fun t => decide (t < SDATARELRO)) (bodyNoptrdata cfg) c1.1 c1.2.1 c1.2.2
  let ds2 := rnd c2.2.1 cfg.ptrSize
  let c3 :=
    if cfg.flag_shared then
      let c := walkWhile (fun t => decide (t = SDATARELRO)) (bodyDatarelro cfg) c2.1 ds2 c2.2.2
      (c.1, rnd c.2.1 cfg.ptrSize, c.2.2)
    else (c2.1, ds2, c2.2.2)
  let dataStart := c3.2.1
  let c4 := walkWhile (fun t => decide (t < SBSS)) (bodyData cfg gcd dataStart) c3.1 dataStart c3.2.2
  let dataLen := c4.2.1 - dataStart
  let ds4 := rnd c4.2.1 cfg.ptrSize
  let st4 := updStore c4.1 gcd (adduintxx cfg (c4.1 gcd) GC_END cfg.ptrSize)
  let st4 := updStore st4 gcd (setuintxx cfg (st4 gcd) 0 (intToU64 dataLen) cfg.ptrSize)
  let bssStart := ds4
  let c5 := walkWhile (fun t => decide (t < SNOPTRBSS)) (bodyBss cfg gcb bssStart) st4 bssStart c4.2.2
  let bssLen := c5.2.1 - bssStart
  let ds5 := rnd c5.2.1 cfg.ptrSize
  let st5 := updStore c5.1 gcb (adduintxx cfg (c5.1 gcb) GC_END cfg.ptrSize)
  let st5 := updStore st5 gcb (setuintxx cfg (st5 gcb) 0 (intToU64 bssLen) cfg.ptrSize)
  walkWhile (fun _ => true) (bodyNoptrbss cfg) st5 ds5 c5.2.2

/-- The `segtext` half of `dodata`'s section walks, restarted from the head
of `datap`: `.rodata`, `.typelink`, `.gcdata`, `.gcbss`, `.gosymtab`,
`.gopclntab`, and the residual read-only ELF sections. -/
def segtextPhase (cfg : Config) (st : Store) (datap : List Nat) :
    Store × Int × List Nat :=
  let d0 := walkWhile (fun t => decide (t < STYPELINK)) (bodyRodata cfg) st 0 datap
  let d1 := walkWhile (fun t => decide (t = STYPELINK)) (bodySimpleRO sectTypelink)
              d0.1 (rnd d0.2.1 cfg.ptrSize) d0.2.2
  let d2 := walkWhile (fun t => decide (t = SGCDATA)) (bodySimpleRO sectGcdata)
              d1.1 (rnd d1.2.1 cfg.ptrSize) d1.2.2
  let d3 := walkWhile (fun t => decide (t = SGCBSS)) (bodySimpleRO sectGcbss)
              d2.1 (rnd d2.2.1 cfg.ptrSize) d2.2.2
  let d4 := walkWhile (fun t => decide (t < SPCLNTAB)) (bodySimpleRO sectSymtab)
              d3.1 (rnd d3.2.1 cfg.ptrSize) d3.2.2
  let d5 := walkWhile (fun t => decide (t < SELFROSECT)) (bodySimpleRO sectPclntab)
              d4.1 (rnd d4.2.1 cfg.ptrSize) d4.2.2
  walkWhile (fun t => decide (t < SELFSECT)) (bodyRoElf cfg)
    d5.1 (rnd d5.2.1 cfg.ptrSize) d5.2.2

/-- `dodata()`: define the GC symbols, select `datap` from `allsym`,
run the dynamic-relocation preprocessor, refilter and sort, then walk the
sorted list section by section, first for `segdata`, then (from the start of
`datap` again) for `segtext`.  The sentinel `lookup(...)->sect` assignments
touch only non-`datap` bookkeeping symbols and are not modelled.  Returns the
final store and the `datap` list. -/
def dodata (cfg : Config) (st : Store) (allsymIds textp : List Nat) (gcd gcb : Nat) :
    Store × List Nat :=
  let st := updStore st gcd {st gcd with type := SGCDATA, reachable := true}
  let st := updStore st gcb {st gcb with type := SGCBSS, reachable := true}
  let st := updStore st gcd (adduintxx cfg (st gcd) 0 cfg.ptrSize)
  let st := updStore st gcb (adduintxx cfg (st gcb) 0 cfg.ptrSize)
  let datap := allsymIds.filter
    (fun i => (st i).reachable && !(st i).special
      && decide (STEXT < (st i).type) && decide ((st i).type < SXREF))
  let st := dynreloc cfg textp datap st
  let datap := datap.filter
    (fun i => decide (STEXT < (st i).type) && decide ((st i).type < SXREF))
  let st :=
    if cfg.flag_shared then
      datap.foldl
        (fun st i =>
          if (st i).rel_ro then updStore st i {st i with type := SDATARELRO} else st)
        st
    else st
  let datap := datsortBy (fun i j => datcmp (st i) (st j)) datap
  let st := (segdataPhase cfg gcd gcb st datap).1
  ((segtextPhase cfg st datap).1, datap)

/-! ## Verification helpers (not part of the embedding) -/

/-- The last byte stored at position `j` by a write list, if any. -/
def findLastW : List (Nat × Nat) → Nat → Option Nat
  | [], _ => none
  | w :: ws, j =>
    match findLastW ws j with
    | some b => some b
    | none => if w.1 = j then some w.2 else none

/-- Two stores agreeing everywhere except possibly in payload contents
(payload lengths included in the agreement). -/
def similarS (st1 st2 : Store) : Prop := ∀ j, strip (st1 j) = strip (st2 j)

/-- The kinds a `datap` symbol may legitimately hold once `dodata` has run:
normalized to `DATA` or `SRODATA`, or (for the `.bss`/`.noptrbss` loops,
which do not assign kinds) an untouched kind in `[SBSS, SXREF)`. -/
def typeFinal (t : Nat) : Prop :=
  t = SDATA ∨ t = SRODATA ∨ (SBSS ≤ t ∧ t < SXREF)

/-- A declared-size-only symbol (no payload yet), as a `BSS`-style symbol
has after the front end populated it. -/
def c3sym : Sym := {size := 8}

/-- The value the spec prescribes for a `PCREL` relocation:
`(target ? symaddr(target) : 0) + add - (s.value + off + siz)`. -/
def specPcrelO (st : Store) (s : Sym) (r : Reloc) : Int :=
  (match r.sym with | some t => symaddr st t | none => 0)
    + r.add - (s.value + r.off + r.siz)

/-- The permutation table `relocsym`'s store switch uses for a size
(`inuxi8` for 8, `inuxi4` otherwise — `default` falls through to `case 4`). -/
def pcrelTbl (cfg : Config) (siz : Nat) : List Nat :=
  if siz = 8 then cfg.inuxi8 else cfg.inuxi4

/-- The stored bits of the computed value for a size (`fl = o` truncates to
32 bits except in the 8-byte case). -/
def pcrelVal (o : Int) (siz : Nat) : Nat :=
  if siz = 8 then intToU64 o else intToU32 o

/-- Scenario S2's relocation: a `PCREL` record at `off=16`, `siz=4`,
`add=0`, targeting `g` (symbol id 1). -/
def rS2 : Reloc := {off := 16, siz := 4, rtype := D_PCREL, sym := some 1}

/-- Scenario S2's store after address assignment: `f` (id 0) a 32-byte TEXT
symbol at `0x1000` holding the call, `g` (id 1) a TEXT symbol at `0x2000`. -/
def stS2 : Store := fun n =>
  match n with
  | 0 => {name := "f", type := STEXT, size := 32, value := 4096,
          p := List.replicate 32 0, r := [rS2], reachable := true}
  | _ => {name := "g", type := STEXT, size := 16, value := 8192, reachable := true}

/-- The failing input for the "not defined" guard: a `PCREL` relocation in
`s` (id 0) whose target (id 1) is an undefined `XREF` symbol. -/
def rC4 : Reloc := {off := 0, siz := 4, rtype := D_PCREL, sym := some 1}

/-- Store for the "not defined" scenario (see `rC4`). -/
def stC4 : Store := fun n =>
  match n with
  | 0 => {name := "s", type := STEXT, size := 4, value := 0,
          p := [0, 0, 0, 0], r := [rC4], reachable := true}
  | _ => {name := "undef", type := SXREF, value := 256, reachable := true}

/-- The PE dynamic-import stub on the 32-bit target (`'8'`): an indirect
`jmp [addr]` (`FF 25`), a 4-byte absolute slot (zero-filled, patched through
its `ADDR` relocation), and two NOP pads. -/
def peStub8 : List Nat := [0xff, 0x25, 0, 0, 0, 0, 0x90, 0x90]

/-- The PE dynamic-import stub on the 64-bit target: `jmp [abs32]`
(`FF 24 25`), the 4-byte absolute slot, and one NOP pad. -/
def peStub6 : List Nat := [0xff, 0x24, 0x25, 0, 0, 0, 0, 0x90]

/-- Scenario S5's GC symbol `gcdata1` before `q` is placed (fresh). -/
def c6gc : Sym := {name := "gcdata1", type := SGCDATA, reachable := true}

/-- Scenario S5's symbol `q`: kind `DATA`, size 24, no `gotype`. -/
def c6q : Sym := {name := "q", type := SDATA, size := 24, reachable := true}

/-- A Windows/PE configuration whose `.rel` symbol is id 0 (64-bit). -/
def cfgC7 : Config := {headtype := Hwindows, relId := 0}

/-- A relocation targeting the pending dynamic import (id 1). -/
def rC7 : Reloc := {off := 2, siz := 4, rtype := D_PCREL, sym := some 1}

/-- Store for the PE stub scenario: id 0 is the fresh `.rel` symbol, id 1 a
dynamic import with `plt = -2`, `got = -1`. -/
def stC7 : Store := fun n =>
  match n with
  | 0 => {name := ".rel"}
  | _ => {name := "imp", type := SDYNIMPORT, plt := -2, got := -1, reachable := true}

/-- A configuration for the `dodata` kind scenario: `-d` given (so the
dynamic-relocation pass is skipped), non-Windows, not shared. -/
def cfgC5 : Config := {debug_d := true}

/-- Store for the `dodata` kind scenario: id 0 is a reachable `BSS` symbol
of size 8; every other id (the GC symbols among them) starts fresh. -/
def stC5 : Store := fun n =>
  match n with
  | 0 => {name := "b", type := SBSS, size := 8, reachable := true}
  | _ => {}

/-! # Theorems -/

/-! ### Byte-store machinery -/

theorem applyWrites_cons (w : Nat × Nat) (ws : List (Nat × Nat)) (p : List Nat) :
    applyWrites (w :: ws) p = applyWrites ws (p.set w.1 w.2) := rfl

theorem applyWrites_append (ws vs : List (Nat × Nat)) (p : List Nat) :
    applyWrites (ws ++ vs) p = applyWrites vs (applyWrites ws p) :=
  List.foldl_append ..

theorem applyWrites_length (ws : List (Nat × Nat)) (p : List Nat) :
    (applyWrites ws p).length = p.length := by
  induction ws generalizing p with
  | nil => rfl
  | cons w ws ih => rw [applyWrites_cons, ih, List.length_set]

theorem applyWrites_getElem? (ws : List (Nat × Nat)) (p : List Nat) (j : Nat) :
    (applyWrites ws p)[j]? =
      match findLastW ws j with
      | none => p[j]?
      | some b => if j < p.length then some b else p[j]? := by
  induction ws generalizing p with
  | nil => simp [applyWrites, findLastW]
  | cons w ws ih =>
    rw [applyWrites_cons, ih]
    have hlen : (p.set w.1 w.2).length = p.length := List.length_set ..
    have hget : ∀ j, (p.set w.1 w.2)[j]? = if w.1 = j ∧ j < p.length then some w.2 else p[j]? := by
      intro j
      by_cases hw : w.1 = j
      · subst hw
        by_cases hj : w.1 < p.length
        · simp [List.getElem?_set_self, hj]
        · have h1 : p.set w.1 w.2 = p := List.set_eq_of_length_le (by omega)
          simp [h1, hj]
      · simp [List.getElem?_set_ne hw, hw]
    show (match findLastW ws j with
          | none => (p.set w.1 w.2)[j]?
          | some b => if j < (p.set w.1 w.2).length then some b else (p.set w.1 w.2)[j]?) =
         (match (match findLastW ws j with
                 | some b => some b
                 | none => if w.1 = j then some w.2 else none) with
          | none => p[j]?
          | some b => if j < p.length then some b else p[j]?)
    cases hf : findLastW ws j with
    | some b =>
      by_cases hj : j < p.length
      · simp [hlen, hj]
      · simp [hlen, hj, hget, hj]
    | none =>
      by_cases hw : w.1 = j
      · subst hw
        by_cases hj : w.1 < p.length <;> simp [hget, hj, hlen]
      · simp [hget, hw]

theorem applyWrites_idem (ws : List (Nat × Nat)) (p : List Nat) :
    applyWrites ws (applyWrites ws p) = applyWrites ws p := by
  apply List.ext_getElem?
  intro j
  have hlen := applyWrites_length ws p
  rw [applyWrites_getElem?, applyWrites_getElem?]
  cases hf : findLastW ws j with
  | none => rfl
  | some b =>
    by_cases hj : j < p.length
    · simp [hlen, hj]
    · simp [hlen, hj]

theorem findLastW_eq_none (ws : List (Nat × Nat)) (j : Nat)
    (h : ∀ w ∈ ws, w.1 ≠ j) : findLastW ws j = none := by
  induction ws with
  | nil => rfl
  | cons w ws ih =>
    have h1 : findLastW ws j = none := ih (fun v hv => h v (List.mem_cons_of_mem w hv))
    have h2 : w.1 ≠ j := h w (List.mem_cons_self ..)
    simp [findLastW, h1, h2]

theorem applyWrites_unwritten (ws : List (Nat × Nat)) (p : List Nat) (j : Nat)
    (h : ∀ w ∈ ws, w.1 ≠ j) : (applyWrites ws p)[j]? = p[j]? := by
  rw [applyWrites_getElem?, findLastW_eq_none ws j h]

theorem tblWrites_pos (tbl : List Nat) (off v : Nat) :
    ∀ w ∈ tblWrites off tbl v, off ≤ w.1 ∧ w.1 < off + tbl.length := by
  induction tbl generalizing off with
  | nil => intro w hw; simp [tblWrites] at hw
  | cons t ts ih =>
    intro w hw
    rw [tblWrites] at hw
    rcases List.mem_cons.mp hw with h | h
    · subst h; simp
    · have := ih (off + 1) w h
      constructor <;> [omega; (simp only [List.length_cons]; omega)]

theorem readVia_applyWrites_tblWrites (tbl : List Nat) (off : Nat) (p : List Nat) (v : Nat)
    (h : off + tbl.length ≤ p.length) :
    readVia (applyWrites (tblWrites off tbl v) p) off tbl =
      (tbl.map (fun t => hostByte v t * 256 ^ t)).sum := by
  induction tbl generalizing off p with
  | nil => simp [readVia, tblWrites]
  | cons t ts ih =>
    rw [tblWrites, applyWrites_cons]
    have hofflt : off < p.length := by simp only [List.length_cons] at h; omega
    have hq : (applyWrites (tblWrites (off + 1) ts v) (p.set off (hostByte v t))).getD off 0
        = hostByte v t := by
      have hun : (applyWrites (tblWrites (off + 1) ts v) (p.set off (hostByte v t)))[off]?
          = (p.set off (hostByte v t))[off]? := by
        apply applyWrites_unwritten
        intro w hw
        have := tblWrites_pos ts (off + 1) v w hw
        omega
      rw [List.getD_eq_getElem?_getD, hun, List.getElem?_set_self hofflt]
      rfl
    rw [readVia, hq, ih (off + 1) (p.set off (hostByte v t))
      (by simp only [List.length_set]; simp only [List.length_cons] at h; omega)]
    simp [List.map_cons, List.sum_cons]

theorem hostByte_sum_range (w v : Nat) :
    ((List.range w).map (fun j => hostByte v j * 256 ^ j)).sum = v % 256 ^ w := by
  induction w with
  | zero => simp [Nat.mod_one]
  | succ w ih =>
    rw [List.range_succ, List.map_append, List.sum_append, ih]
    simp only [List.map_cons, List.map_nil, List.sum_cons, List.sum_nil, add_zero]
    have hm : 0 < 256 ^ w := Nat.pos_pow_of_pos w (by norm_num)
    have key : v % (256 ^ w * 256) = v % 256 ^ w + 256 ^ w * (v / 256 ^ w % 256) :=
      Nat.mod_mul
    rw [pow_succ, key, hostByte]
    ring

theorem readVia_roundtrip (tbl : List Nat) (off : Nat) (p : List Nat) (v w : Nat)
    (hperm : tbl.Perm (List.range w))
    (hlen : off + tbl.length ≤ p.length) :
    readVia (applyWrites (tblWrites off tbl v) p) off tbl = v % 256 ^ w := by
  rw [readVia_applyWrites_tblWrites tbl off p v hlen]
  rw [List.Perm.sum_eq (List.Perm.map (fun t => hostByte v t * 256 ^ t) hperm)]
  exact hostByte_sum_range w v

/-! ### The byte encoder -/

theorem symgrowP_length (p : List Nat) (n : Nat) :
    (symgrowP p n).length = max p.length n := by
  unfold symgrowP
  split <;> simp <;> omega

theorem setuintxx_eq (cfg : Config) (s : Sym) (off : Int) (v wid : Nat) :
    setuintxx cfg s off v wid =
      {s with type := if s.type = 0 then SDATA else s.type,
              reachable := true,
              size := if s.size < off + wid then off + wid else s.size,
              p := applyWrites (uintWrites cfg off.toNat v wid)
                     (if s.size < off + wid then symgrowP s.p (off + wid).toNat else s.p)} := by
  unfold setuintxx
  by_cases h : s.size < off + wid <;> simp [h]

theorem setuintxx_p_length (cfg : Config) (s : Sym) (off : Int) (v wid : Nat) :
    (setuintxx cfg s off v wid).p.length =
      if s.size < off + wid then max s.p.length (off + wid).toNat else s.p.length := by
  rw [setuintxx_eq]
  by_cases h : s.size < off + wid <;>
    simp [h, applyWrites_length, symgrowP_length]

/-- C3 (amended): `set_uint` leaves the payload covering `[off, off+w)`
exactly when the declared size was less than `off+w` (the grow path) or the
payload already covered it; in the remaining case (`size ≥ off+w` but
`payload_len < off+w`) no growth happens and the byte stores fall outside the
payload. -/
theorem setuint_payload_amended (cfg : Config) (s : Sym) (off : Int) (v wid : Nat)
    (_hw : wid = 1 ∨ wid = 2 ∨ wid = 4 ∨ wid = 8) (hoff : 0 ≤ off)
    (hcond : s.size < off + wid ∨ (off + (wid : Int)) ≤ (s.p.length : Int)) :
    (off + (wid : Int)) ≤ ((setuintxx cfg s off v wid).p.length : Int) := by
  rw [setuintxx_p_length]
  rcases hcond with h | h
  · simp only [h, if_pos]
    have h1 : ((off + (wid : Int)).toNat : Int) = off + wid := by omega
    have h2 : (off + wid).toNat ≤ max s.p.length (off + wid).toNat := le_max_right ..
    omega
  · split <;> [skip; omega]
    have h2 : (off + wid).toNat ≤ max s.p.length (off + wid).toNat := le_max_right ..
    have h1 : ((off + (wid : Int)).toNat : Int) = off + wid := by omega
    omega

/-- C3 (counterexample): a symbol with declared size 8 and empty payload; a
4-byte `set_uint` at offset 0 does not grow the payload (the guard
`size < off+wid` fails), so the payload length stays 0, short of `off+w`. -/
theorem setuint_payload_counterexample :
    ¬ ((0 : Int) + (4 : Int) ≤ (((setuintxx ({} : Config) c3sym 0 5 4).p.length : Int))) := by
  decide

theorem setuint_payload_amended_witness :
    ((1 : Nat) = 1 ∨ (1 : Nat) = 2 ∨ (1 : Nat) = 4 ∨ (1 : Nat) = 8) ∧
      ((0 : Int) ≤ 0) ∧
      ((0 : Int) + ((1 : Nat) : Int) ≤ (((setuintxx ({} : Config) ({} : Sym) 0 7 1).p.length : Int))) :=
  ⟨Or.inl rfl, le_refl 0,
    setuint_payload_amended {} {} 0 7 1 (Or.inl rfl) (le_refl 0) (Or.inl (by decide))⟩

/-- C8: endianness round-trip.  For any byte-permutation table for the width
(the hypothesis admits every permutation of `0..w-1`, covering both
endiannesses), decoding the `w` payload bytes written by
`set_uint(s, off, v, w)` through the same table returns `v`, for any `v`
fitting in `w` bytes, whenever the stored bytes land inside the payload
(which holds on the grow path or when the payload already covered the
range). -/
theorem setuint_roundtrip (cfg : Config) (s : Sym) (off : Int) (v wid : Nat)
    (hw : wid = 1 ∨ wid = 2 ∨ wid = 4 ∨ wid = 8)
    (hoff : 0 ≤ off)
    (hperm : (uintTable cfg wid).Perm (List.range wid))
    (hv : v < 256 ^ wid)
    (hcont : s.size < off + wid ∨ (off + (wid : Int)) ≤ (s.p.length : Int)) :
    readVia (setuintxx cfg s off v wid).p off.toNat (uintTable cfg wid) = v := by
  have htlen : (uintTable cfg wid).length = wid := by
    rw [List.Perm.length_eq hperm, List.length_range]
  have hplen : (off + (wid : Int)) ≤ ((setuintxx cfg s off v wid).p.length : Int) :=
    setuint_payload_amended cfg s off v wid hw hoff hcont
  rw [setuintxx_eq]
  simp only
  set q := (if s.size < off + wid then symgrowP s.p (off + wid).toNat else s.p) with hq
  have hqlen : off.toNat + (uintTable cfg wid).length ≤ q.length := by
    have : (setuintxx cfg s off v wid).p.length = q.length := by
      rw [setuintxx_eq]
      simp only [applyWrites_length]
    omega
  rw [uintWrites]
  rw [readVia_roundtrip (uintTable cfg wid) off.toNat q (uintVal v wid) wid hperm hqlen]
  rcases hw with h | h | h | h <;> subst h <;> simp only [uintVal] <;>
    norm_num at hv ⊢ <;> omega

theorem setuint_roundtrip_witness :
    (uintTable ({} : Config) 2).Perm (List.range 2) ∧ (258 : Nat) < 256 ^ 2 ∧
      readVia (setuintxx ({} : Config) ({} : Sym) 0 258 2).p 0 (uintTable ({} : Config) 2) = 258 :=
  ⟨by decide, by decide,
    setuint_roundtrip {} {} 0 258 2 (Or.inr (Or.inl rfl)) (le_refl 0) (by decide) (by decide)
      (Or.inl (by decide))⟩

/-! ### The sorter -/

theorem dmergeAux_perm (cmp : α → α → Int) :
    ∀ (f : Nat) (xs ys : List α), (dmergeAux cmp f xs ys).Perm (xs ++ ys) := by
  intro f
  induction f with
  | zero => intro xs ys; exact List.Perm.refl _
  | succ f ih =>
    intro xs ys
    match xs, ys with
    | [], ys => simp [dmergeAux]
    | x :: xs, [] => simp [dmergeAux]
    | x :: xs, y :: ys =>
      rw [dmergeAux]
      split
      · exact (ih xs (y :: ys)).cons x
      · exact ((ih (x :: xs) ys).cons y).trans List.perm_middle.symm

theorem datsortAux_perm (cmp : α → α → Int) :
    ∀ (f : Nat) (l : List α), (datsortAux cmp f l).Perm l := by
  intro f
  induction f with
  | zero => intro l; exact List.Perm.refl _
  | succ f ih =>
    intro l
    match l with
    | [] => exact List.Perm.refl _
    | [x] => exact List.Perm.refl _
    | x :: y :: rest =>
      rw [datsortAux]
      refine ((dmergeAux_perm cmp _ _ _).trans ?_)
      have h1 := ih ((x :: y :: rest).take (((x :: y :: rest).length + 1) / 2))
      have h2 := ih ((x :: y :: rest).drop (((x :: y :: rest).length + 1) / 2))
      exact (h1.append h2).trans (by rw [List.take_append_drop])

/-- C10: `datsort` returns a permutation of its input: no symbol node is
dropped or duplicated by the divide-and-conquer merge. -/
theorem datsort_perm (l : List Sym) : (datsort l).Perm l :=
  datsortAux_perm datcmp l.length l

theorem dmergeAux_chain (cmp : α → α → Int)
    (hflip : ∀ a b, 0 ≤ cmp a b → cmp b a ≤ 0) :
    ∀ (f : Nat) (xs ys : List α), xs.length + ys.length ≤ f →
      List.Chain' (fun a b => cmp a b ≤ 0) xs →
      List.Chain' (fun a b => cmp a b ≤ 0) ys →
      List.Chain' (fun a b => cmp a b ≤ 0) (dmergeAux cmp f xs ys) ∧
        (∀ z, (∀ h ∈ xs.head?, cmp z h ≤ 0) → (∀ h ∈ ys.head?, cmp z h ≤ 0) →
          ∀ h ∈ (dmergeAux cmp f xs ys).head?, cmp z h ≤ 0) := by
  intro f
  induction f with
  | zero =>
    intro xs ys hlen hxs hys
    have hx : xs = [] := List.length_eq_zero.mp (by omega)
    have hy : ys = [] := List.length_eq_zero.mp (by omega)
    subst hx; subst hy
    exact ⟨List.chain'_nil, by intro z _ _ h hh; simp [dmergeAux] at hh⟩
  | succ f ih =>
    intro xs ys hlen hxs hys
    match xs, ys with
    | [], ys =>
      refine ⟨by simpa [dmergeAux] using hys, ?_⟩
      intro z _ hz
      simpa [dmergeAux] using hz
    | x :: xs, [] =>
      refine ⟨by simpa [dmergeAux] using hxs, ?_⟩
      intro z hz _
      simpa [dmergeAux] using hz
    | x :: xs, y :: ys =>
      rw [dmergeAux]
      have hlen1 : xs.length + (y :: ys).length ≤ f := by
        simp only [List.length_cons] at hlen ⊢; omega
      have hlen2 : (x :: xs).length + ys.length ≤ f := by
        simp only [List.length_cons] at hlen ⊢; omega
      rcases List.chain'_cons'.mp hxs with ⟨hxh, hxs'⟩
      rcases List.chain'_cons'.mp hys with ⟨hyh, hys'⟩
      by_cases hc : cmp x y < 0
      · rw [if_pos hc]
        obtain ⟨hm, hhead⟩ := ih xs (y :: ys) hlen1 hxs' hys
        refine ⟨List.chain'_cons'.mpr ⟨?_, hm⟩, ?_⟩
        · exact hhead x hxh (by intro h hh; simp at hh; subst hh; omega)
        · intro z hz _ h hh
          simp only [List.head?_cons, Option.mem_def, Option.some.injEq] at hh
          subst hh
          exact hz x (by simp)
      · rw [if_neg hc]
        have hyx : cmp y x ≤ 0 := hflip x y (by omega)
        obtain ⟨hm, hhead⟩ := ih (x :: xs) ys hlen2 hxs hys'
        refine ⟨List.chain'_cons'.mpr ⟨?_, hm⟩, ?_⟩
        · exact hhead y (by intro h hh; simp at hh; subst hh; exact hyx) hyh
        · intro z _ hz h hh
          simp only [List.head?_cons, Option.mem_def, Option.some.injEq] at hh
          subst hh
          exact hz y (by simp)

theorem datsortAux_chain (cmp : α → α → Int)
    (hflip : ∀ a b, 0 ≤ cmp a b → cmp b a ≤ 0) :
    ∀ (f : Nat) (l : List α), l.length ≤ f →
      List.Chain' (fun a b => cmp a b ≤ 0) (datsortAux cmp f l) := by
  intro f
  induction f with
  | zero =>
    intro l hl
    have : l = [] := List.length_eq_zero.mp (by omega)
    subst this
    exact List.chain'_nil
  | succ f ih =>
    intro l hl
    match l with
    | [] => exact List.chain'_nil
    | [x] => exact List.chain'_singleton x
    | x :: y :: rest =>
      rw [datsortAux]
      set l := x :: y :: rest with hldef
      set n := (l.length + 1) / 2 with hn
      have hlen : 2 ≤ l.length := by simp [hldef]
      have hn1 : 1 ≤ n ∧ n ≤ l.length - 1 := by
        constructor <;> omega
      have htake : (l.take n).length = n := by
        rw [List.length_take]; omega
      have hdrop : (l.drop n).length = l.length - n := by
        rw [List.length_drop]
      have c1 := ih (l.take n) (by omega)
      have c2 := ih (l.drop n) (by omega)
      have hm := dmergeAux_chain cmp hflip l.length
        (datsortAux cmp f (l.take n)) (datsortAux cmp f (l.drop n))
        (by
          rw [List.Perm.length_eq (datsortAux_perm cmp f (l.take n)),
              List.Perm.length_eq (datsortAux_perm cmp f (l.drop n))]
          omega)
        c1 c2
      exact hm.1

theorem strcmpL_flip : ∀ u v : List Char, 0 ≤ strcmpL u v → strcmpL v u ≤ 0 := by
  intro u
  induction u with
  | nil =>
    intro v hv
    cases v with
    | nil => exact le_of_eq rfl
    | cons c cs =>
      have he : strcmpL [] (c :: cs) = -1 := rfl
      rw [he] at hv
      exact absurd hv (by norm_num)
  | cons c cs ihc =>
    intro v hv
    cases v with
    | nil =>
      have he : strcmpL [] (c :: cs) = -1 := rfl
      rw [he]
      norm_num
    | cons d ds =>
      have he1 : strcmpL (c :: cs) (d :: ds)
          = if c.toNat < d.toNat then -1
            else if d.toNat < c.toNat then 1 else strcmpL cs ds := rfl
      have he2 : strcmpL (d :: ds) (c :: cs)
          = if d.toNat < c.toNat then -1
            else if c.toNat < d.toNat then 1 else strcmpL ds cs := rfl
      rw [he1] at hv
      rw [he2]
      by_cases h1 : c.toNat < d.toNat
      · rw [if_pos h1] at hv
        exact absurd hv (by norm_num)
      · by_cases h2 : d.toNat < c.toNat
        · rw [if_pos h2]
          norm_num
        · rw [if_neg h1, if_neg h2] at hv
          rw [if_neg h2, if_neg h1]
          exact ihc ds hv

theorem datcmp_flip (a b : Sym) (h : 0 ≤ datcmp a b) : datcmp b a ≤ 0 := by
  unfold datcmp at h ⊢
  by_cases ht : a.type = b.type
  · rw [if_neg (by simp [ht])] at h
    rw [if_neg (by simp [ht])]
    by_cases hs : a.size = b.size
    · rw [if_neg (by simp [hs])] at h
      rw [if_neg (by simp [hs])]
      exact strcmpL_flip a.name.data b.name.data h
    · rw [if_pos hs] at h
      rw [if_pos (fun hh => hs hh.symm)]
      by_cases h5 : a.size < b.size
      · rw [if_pos h5] at h
        exact absurd h (by norm_num)
      · have h6 : b.size < a.size := by omega
        rw [if_pos h6]
        norm_num
  · rw [if_pos ht] at h
    rw [if_pos (fun hh => ht hh.symm)]
    omega

/-- C2: `datsort` returns a list sorted non-decreasingly by the
`(kind, size, name)` key: every adjacent pair of the returned list compares
`≤ 0` under `datcmp` (kind numerically, then size, then name via
`strcmp`). -/
theorem datsort_sorted (l : List Sym) :
    List.Chain' (fun a b => datcmp a b ≤ 0) (datsort l) :=
  datsortAux_chain datcmp datcmp_flip l.length l (le_refl _)

/-! ### The relocation resolver -/

/-- The guard of the "not defined" diagnostic is identically false: with C
precedence, `r->sym->type & SMASK == 0` parses as `type & (SMASK == 0)` and
`SMASK` is neither `0` nor `SXREF`, so both operands of `||` are `type & 0`. -/
theorem notDefinedCond_false (st : Store) (r : Reloc) : notDefinedCond st r = false := by
  unfold notDefinedCond
  have h0 : cEq SMASK 0 = 0 := rfl
  have h1 : cEq SMASK SXREF = 0 := rfl
  rw [h0, h1, Nat.and_zero]
  simp

/-- C1: in executable mode, for a `PCREL` relocation with in-bounds offset,
`relocsym` stores into the payload bytes `[off, off+siz)` the value
`(target ? symaddr(target) : 0) + add - (s.value + off + siz)` through the
target-endianness permutation table: the payload becomes exactly those byte
stores applied to it, and decoding the stored bytes through the table yields
the value (truncated to the store width). -/
theorem relocsym_pcrel_stores (cfg : Config) (st : Store) (s : Sym) (r : Reloc)
    (hobj : cfg.isobj = false)
    (hty : r.rtype = D_PCREL)
    (hoff : 0 ≤ r.off)
    (hbound : r.off + r.siz ≤ (s.p.length : Int))
    (hsiz : r.siz = 4 ∨ r.siz = 8)
    (hperm : (pcrelTbl cfg r.siz).Perm (List.range r.siz))
    (hr : s.r = [r]) :
    (relocsymP cfg st s).p
        = applyWrites (tblWrites r.off.toNat (pcrelTbl cfg r.siz)
            (pcrelVal (specPcrelO st s r) r.siz)) s.p ∧
      readVia (relocsymP cfg st s).p r.off.toNat (pcrelTbl cfg r.siz)
        = pcrelVal (specPcrelO st s r) r.siz := by
  have hnb : ¬(r.off < 0 ∨ (s.p.length : Int) < r.off + r.siz) :=
    not_or.mpr ⟨not_lt.mpr hoff, not_lt.mpr hbound⟩
  have h256 : ¬(256 ≤ r.rtype) := by rw [hty]; decide
  have hne : ¬(r.rtype = D_ADDR) := by rw [hty]; decide
  have hno : ¬(cfg.isobj = true ∧ targType st r ≠ SCONST) := by
    rw [hobj]; simp
  have hO : relocO cfg st s.value r = (specPcrelO st s r, []) := by
    unfold relocO
    rw [if_neg hne, if_pos hty]
    simp only [hobj, Bool.false_eq_true, false_and, if_false]
    rfl
  have wkey : (relocRec cfg st s.value s.p.length r).1
      = tblWrites r.off.toNat (pcrelTbl cfg r.siz)
          (pcrelVal (specPcrelO st s r) r.siz) := by
    unfold relocRec
    rw [if_neg hnb, notDefinedCond_false]
    simp only [Bool.false_eq_true, if_false, if_neg h256, hO]
    rcases hsiz with h4 | h8
    · rw [if_pos h4, h4]
      rfl
    · rw [if_neg (by rw [h8]; decide), if_pos h8, h8]
      rfl
  have hpkey : (relocsymP cfg st s).p
      = applyWrites (tblWrites r.off.toNat (pcrelTbl cfg r.siz)
          (pcrelVal (specPcrelO st s r) r.siz)) s.p := by
    unfold relocsymP relocWritesSym
    rw [hr]
    simp only [List.flatMap_cons, List.flatMap_nil, List.append_nil, wkey]
  refine ⟨hpkey, ?_⟩
  rw [hpkey]
  have htlen : (pcrelTbl cfg r.siz).length = r.siz := by
    rw [List.Perm.length_eq hperm, List.length_range]
  have hlenb : r.off.toNat + (pcrelTbl cfg r.siz).length ≤ s.p.length := by omega
  rw [readVia_roundtrip (pcrelTbl cfg r.siz) r.off.toNat s.p
      (pcrelVal (specPcrelO st s r) r.siz) r.siz hperm hlenb]
  rcases hsiz with h4 | h8
  · rw [h4]
    unfold pcrelVal intToU32
    have hlt : (specPcrelO st s r).emod (2 ^ 32) < 2 ^ 32 :=
      Int.emod_lt_of_pos _ (by norm_num)
    have hnn : 0 ≤ (specPcrelO st s r).emod (2 ^ 32) :=
      Int.emod_nonneg _ (by norm_num)
    norm_num at hlt hnn ⊢
    omega
  · rw [h8]
    unfold pcrelVal intToU64
    have hlt : (specPcrelO st s r).emod (2 ^ 64) < 2 ^ 64 :=
      Int.emod_lt_of_pos _ (by norm_num)
    have hnn : 0 ≤ (specPcrelO st s r).emod (2 ^ 64) :=
      Int.emod_nonneg _ (by norm_num)
    norm_num at hlt hnn ⊢
    omega

/-- C1 witness, scenario S2: `f` at `0x1000` with the `PCREL` record at
offset 16 to `g` at `0x2000`; the four little-endian bytes decode to
`0x2000 - (0x1000 + 16 + 4) = 4076`. -/
theorem relocsym_pcrel_stores_witness :
    (stS2 0).r = [rS2] ∧
      readVia (relocsymP ({} : Config) stS2 (stS2 0)).p 16 (pcrelTbl ({} : Config) 4) = 4076 := by
  have h := relocsym_pcrel_stores ({} : Config) stS2 (stS2 0) rS2 rfl rfl
    (by decide) (by decide) (Or.inl rfl) (by decide) rfl
  refine ⟨rfl, ?_⟩
  have h2 := h.2
  rw [show rS2.off.toNat = 16 from rfl, show rS2.siz = 4 from rfl] at h2
  rw [h2]
  decide

/-- C4: the "not defined" check can never fire.  At the concrete failing
input (a `PCREL` relocation whose target is an `XREF` symbol) the guard
evaluates to false, no "not defined" diagnostic is emitted, and `relocsym`
writes the relocation bytes anyway (here `0x100 - 4 = 252`). -/
theorem relocsym_notdefined_bug :
    notDefinedCond stC4 rC4 = false ∧
      Diag.notDefined ∉ relocsymDiags ({} : Config) stC4 (stC4 0) ∧
      (relocsymP ({} : Config) stC4 (stC4 0)).p = [252, 0, 0, 0] :=
  ⟨notDefinedCond_false stC4 rC4, by decide, by decide⟩

/-! ### Appending encoded integers (`adduintxx` as used by `gcaddsym` and
the PE stub emitter) -/

theorem symgrowP_append (p : List Nat) (n : Nat) (h : p.length ≤ n) :
    symgrowP p n = p ++ List.replicate (n - p.length) 0 := by
  unfold symgrowP
  by_cases he : n ≤ p.length
  · have : n = p.length := le_antisymm he h
    rw [if_pos he, this]
    simp
  · rw [if_neg he]

theorem tblWrites_shift (tbl : List Nat) (a b v : Nat) :
    tblWrites (a + b) tbl v = (tblWrites b tbl v).map (fun w => (a + w.1, w.2)) := by
  induction tbl generalizing b with
  | nil => rfl
  | cons t ts ih =>
    rw [tblWrites, tblWrites, List.map_cons]
    have : a + b + 1 = a + (b + 1) := by omega
    rw [this, ih (b + 1)]

theorem tblWrites_shift0 (tbl : List Nat) (a v : Nat) :
    tblWrites a tbl v = (tblWrites 0 tbl v).map (fun w => (a + w.1, w.2)) := by
  have h := tblWrites_shift tbl a 0 v
  simpa using h

theorem applyWrites_shift_append (ws : List (Nat × Nat)) (p q : List Nat) :
    applyWrites (ws.map (fun w => (p.length + w.1, w.2))) (p ++ q)
      = p ++ applyWrites ws q := by
  induction ws generalizing q with
  | nil => rfl
  | cons w ws ih =>
    rw [List.map_cons, applyWrites_cons, applyWrites_cons]
    rw [List.set_append_right _ _ (by omega)]
    rw [Nat.add_sub_cancel_left]
    exact ih (q.set w.1 w.2)

theorem encW_length (cfg : Config) (wid v : Nat) : (encW cfg wid v).length = wid := by
  unfold encW
  rw [applyWrites_length, List.length_replicate]

/-- `adduintxx` on a symbol whose payload length equals its size appends
exactly the encoded bytes of the value and advances `size` by the width. -/
theorem adduintxx_append (cfg : Config) (s : Sym) (v wid : Nat)
    (hnp : (s.p.length : Int) = s.size) (hw : 1 ≤ wid) :
    adduintxx cfg s v wid =
      {s with type := if s.type = 0 then SDATA else s.type,
              reachable := true,
              size := s.size + wid,
              p := s.p ++ encW cfg wid v} := by
  unfold adduintxx
  rw [setuintxx_eq]
  have hlt : s.size < s.size + wid := by omega
  rw [if_pos hlt, if_pos hlt]
  have htn : (s.size + (wid : Int)).toNat = s.p.length + wid := by omega
  rw [htn]
  rw [symgrowP_append s.p (s.p.length + wid) (by omega)]
  have hrep : s.p.length + wid - s.p.length = wid := by omega
  rw [hrep]
  have hoffn : (s.size).toNat = s.p.length := by omega
  unfold uintWrites
  rw [hoffn]
  rw [tblWrites_shift0, applyWrites_shift_append]
  rfl

/-! ### GC descriptor synthesis (`gcaddsym`) -/

/-- The two records one untyped-loop iteration appends. -/
theorem gcaptr_step (cfg : Config) (g : Sym) (v : Nat)
    (hp : 1 ≤ cfg.ptrSize)
    (hnp : (g.p.length : Int) = g.size) :
    (adduintxx cfg (adduintxx cfg g GC_APTR cfg.ptrSize) v cfg.ptrSize).p
        = g.p ++ encW cfg cfg.ptrSize GC_APTR ++ encW cfg cfg.ptrSize v ∧
      (adduintxx cfg (adduintxx cfg g GC_APTR cfg.ptrSize) v cfg.ptrSize).size
        = g.size + 2 * (cfg.ptrSize : Int) ∧
      ((adduintxx cfg (adduintxx cfg g GC_APTR cfg.ptrSize) v cfg.ptrSize).p.length : Int)
        = (adduintxx cfg (adduintxx cfg g GC_APTR cfg.ptrSize) v cfg.ptrSize).size := by
  have h1 := adduintxx_append cfg g GC_APTR cfg.ptrSize hnp hp
  have hnp1 : (((adduintxx cfg g GC_APTR cfg.ptrSize).p.length : Int)
      = (adduintxx cfg g GC_APTR cfg.ptrSize).size) := by
    rw [h1]
    simp only [List.length_append, encW_length]
    omega
  have h2 := adduintxx_append cfg (adduintxx cfg g GC_APTR cfg.ptrSize) v cfg.ptrSize hnp1 hp
  refine ⟨?_, ?_, ?_⟩
  · rw [h2, h1]
  · rw [h2, h1]
    show g.size + (cfg.ptrSize : Int) + cfg.ptrSize = g.size + 2 * (cfg.ptrSize : Int)
    ring
  · rw [h2]
    simp only [List.length_append, encW_length]
    rw [h1]
    simp only [List.length_append, encW_length]
    omega

/-- What `cnt` iterations of the untyped GC loop (at `a0 = 0`) append. -/
theorem gcaptrLoop_spec (cfg : Config) (off : Int) (cnt : Nat) (gc : Sym)
    (hp : 1 ≤ cfg.ptrSize)
    (hnp : (gc.p.length : Int) = gc.size) :
    (gcaptrLoop cfg off 0 cnt gc).p
        = gc.p ++ (List.range cnt).flatMap
            (fun k => encW cfg cfg.ptrSize GC_APTR
              ++ encW cfg cfg.ptrSize (intToU64 (off + (k : Int) * cfg.ptrSize))) ∧
      (gcaptrLoop cfg off 0 cnt gc).size
        = gc.size + (cnt : Int) * (2 * cfg.ptrSize) ∧
      ((gcaptrLoop cfg off 0 cnt gc).p.length : Int) = (gcaptrLoop cfg off 0 cnt gc).size := by
  induction cnt with
  | zero =>
    refine ⟨by simp [gcaptrLoop], by simp [gcaptrLoop], by simpa [gcaptrLoop] using hnp⟩
  | succ j ih =>
    obtain ⟨ihp, ihs, ihn⟩ := ih
    have hunf : gcaptrLoop cfg off 0 (j + 1) gc
        = adduintxx cfg (adduintxx cfg (gcaptrLoop cfg off 0 j gc) GC_APTR cfg.ptrSize)
            (intToU64 (off + 0 + (j : Int) * cfg.ptrSize)) cfg.ptrSize := by
      unfold gcaptrLoop
      rw [List.range_succ, List.foldl_append, List.foldl_cons, List.foldl_nil]
    obtain ⟨hsp, hss, hsn⟩ := gcaptr_step cfg (gcaptrLoop cfg off 0 j gc)
      (intToU64 (off + 0 + (j : Int) * cfg.ptrSize)) hp ihn
    refine ⟨?_, ?_, ?_⟩
    · rw [hunf, hsp, ihp, List.range_succ, List.flatMap_append]
      simp only [List.flatMap_cons, List.flatMap_nil, List.append_nil, List.append_assoc]
      have harg : off + 0 + (j : Int) * cfg.ptrSize = off + (j : Int) * cfg.ptrSize := by ring
      rw [harg]
    · rw [hunf, hss, ihs]
      push_cast
      ring
    · rw [hunf]
      exact hsn

/-- C6: `gcaddsym` on an untyped symbol (no `gotype`, name not `".string"`)
of size `m * PtrSize` (`m ≥ 1`) placed at a pointer-aligned non-negative
offset appends exactly `m` `GC_APTR` records to the GC symbol, the `k`-th
carrying offset `off + k * PtrSize`; each record is the encoded opcode
followed by the encoded offset. -/
theorem gcaddsym_untyped (cfg : Config) (gc s : Sym) (off : Int) (m : Nat)
    (hP : cfg.ptrSize = 4 ∨ cfg.ptrSize = 8)
    (hgo : s.gotype = none)
    (hname : s.name ≠ dotString)
    (_hoff : 0 ≤ off)
    (halign : (cfg.ptrSize : Int) ∣ off)
    (hsize : s.size = (m : Int) * cfg.ptrSize)
    (hm : 1 ≤ m)
    (hnp : (gc.p.length : Int) = gc.size) :
    (gcaddsym cfg gc s off).p
        = gc.p ++ (List.range m).flatMap
            (fun k => encW cfg cfg.ptrSize GC_APTR
              ++ encW cfg cfg.ptrSize (intToU64 (off + (k : Int) * cfg.ptrSize))) ∧
      (gcaddsym cfg gc s off).size = gc.size + (m : Int) * (2 * cfg.ptrSize) := by
  have hp1 : 1 ≤ cfg.ptrSize := by rcases hP with h | h <;> omega
  have hnotsmall : ¬(s.size < (cfg.ptrSize : Int)) := by
    rw [hsize]
    have h1 : (1 : Int) * cfg.ptrSize ≤ (m : Int) * cfg.ptrSize := by
      apply mul_le_mul_of_nonneg_right _ (by positivity)
      exact_mod_cast hm
    omega
  have ha0 : (-off).emod cfg.ptrSize = 0 :=
    Int.emod_eq_zero_of_dvd (Dvd.dvd.neg_right halign)
  have hcnt : ((s.size - 0) / (cfg.ptrSize : Int)).toNat = m := by
    rw [sub_zero, hsize, Int.mul_ediv_cancel _ (by omega)]
    omega
  unfold gcaddsym
  rw [if_neg hnotsmall, if_neg hname, hgo]
  show (gcaptrLoop cfg off ((-off).emod cfg.ptrSize)
          (((s.size - (-off).emod cfg.ptrSize) / (cfg.ptrSize : Int)).toNat) gc).p = _ ∧
       (gcaptrLoop cfg off ((-off).emod cfg.ptrSize)
          (((s.size - (-off).emod cfg.ptrSize) / (cfg.ptrSize : Int)).toNat) gc).size = _
  rw [ha0, hcnt]
  obtain ⟨h1, h2, _⟩ := gcaptrLoop_spec cfg off m gc hp1 hnp
  exact ⟨h1, h2⟩

/-- C6 witness, scenario S5: `q` of size 24 on amd64 (`PtrSize = 8`) placed
at offset 16 yields three `GC_APTR` records at offsets 16, 24, 32. -/
theorem gcaddsym_untyped_witness :
    c6q.gotype = none ∧ c6q.size = (3 : Int) * 8 ∧
      (gcaddsym ({} : Config) c6gc c6q 16).p
        = [2, 0, 0, 0, 0, 0, 0, 0, 16, 0, 0, 0, 0, 0, 0, 0,
           2, 0, 0, 0, 0, 0, 0, 0, 24, 0, 0, 0, 0, 0, 0, 0,
           2, 0, 0, 0, 0, 0, 0, 0, 32, 0, 0, 0, 0, 0, 0, 0] := by
  have h := gcaddsym_untyped ({} : Config) c6gc c6q 16 3 (Or.inr rfl) rfl
    (by decide) (by norm_num) ⟨2, by norm_num⟩ (by decide) (by decide) (by decide)
  exact ⟨rfl, by decide, by rw [h.1]; decide⟩

/-! ### The Windows/PE dynamic-import stub emitter -/

theorem updStore_self (st : Store) (i : Nat) (s : Sym) : updStore st i s i = s := by
  simp [updStore]

theorem updStore_ne (st : Store) (i : Nat) (s : Sym) (j : Nat) (h : j ≠ i) :
    updStore st i s j = st j := by
  simp [updStore, h]

theorem encW1 (cfg : Config) (v : Nat) (h1 : cfg.inuxi1 = [0]) (hv : v < 256) :
    encW cfg 1 v = [v] := by
  unfold encW uintWrites uintTable uintVal
  simp only [if_pos rfl, h1]
  norm_num [tblWrites, applyWrites, hostByte]
  omega

theorem adduint1_facts (cfg : Config) (s : Sym) (v : Nat)
    (h1 : cfg.inuxi1 = [0]) (hv : v < 256)
    (hnp : (s.p.length : Int) = s.size) :
    (adduintxx cfg s v 1).p = s.p ++ [v] ∧
      (adduintxx cfg s v 1).size = s.size + 1 ∧
      (adduintxx cfg s v 1).r = s.r ∧
      ((adduintxx cfg s v 1).p.length : Int) = (adduintxx cfg s v 1).size := by
  have h := adduintxx_append cfg s v 1 hnp (le_refl 1)
  have he := encW1 cfg v h1 hv
  refine ⟨by rw [h, he], by rw [h]; norm_num, by rw [h], ?_⟩
  rw [h, he]
  show ((s.p ++ [v]).length : Int) = s.size + (1 : Nat)
  simp only [List.length_append, List.length_cons, List.length_nil]
  omega

theorem addaddrplus_facts (cfg : Config) (s : Sym) (t : Nat) (add : Int)
    (hnp : (s.p.length : Int) = s.size) :
    (addaddrplus cfg s t add).p = s.p ++ List.replicate cfg.ptrSize 0 ∧
      (addaddrplus cfg s t add).size = s.size + cfg.ptrSize ∧
      (addaddrplus cfg s t add).r
        = s.r ++ [{off := s.size, siz := cfg.ptrSize, rtype := D_ADDR,
                   sym := some t, add := add}] ∧
      ((addaddrplus cfg s t add).p.length : Int) = (addaddrplus cfg s t add).size := by
  have htn : (s.size + (cfg.ptrSize : Int)).toNat = s.p.length + cfg.ptrSize := by omega
  have hgrow : symgrowP s.p (s.size + (cfg.ptrSize : Int)).toNat
      = s.p ++ List.replicate cfg.ptrSize 0 := by
    rw [htn, symgrowP_append s.p _ (by omega)]
    congr 2
    omega
  unfold addaddrplus
  refine ⟨hgrow, rfl, rfl, ?_⟩
  show ((symgrowP s.p (s.size + (cfg.ptrSize : Int)).toNat).length : Int)
      = s.size + cfg.ptrSize
  rw [hgrow]
  simp only [List.length_append, List.length_replicate]
  omega

theorem addaddrplus4_facts (s : Sym) (t : Nat) (add : Int)
    (hnp : (s.p.length : Int) = s.size) :
    (addaddrplus4 s t add).p = s.p ++ List.replicate 4 0 ∧
      (addaddrplus4 s t add).size = s.size + 4 ∧
      (addaddrplus4 s t add).r
        = s.r ++ [{off := s.size, siz := 4, rtype := D_ADDR,
                   sym := some t, add := add}] ∧
      ((addaddrplus4 s t add).p.length : Int) = (addaddrplus4 s t add).size := by
  have htn : (s.size + (4 : Int)).toNat = s.p.length + 4 := by omega
  have hgrow : symgrowP s.p (s.size + (4 : Int)).toNat
      = s.p ++ List.replicate 4 0 := by
    rw [htn, symgrowP_append s.p _ (by omega)]
    congr 2
    omega
  unfold addaddrplus4
  refine ⟨hgrow, rfl, rfl, ?_⟩
  show ((symgrowP s.p (s.size + (4 : Int)).toNat).length : Int) = s.size + 4
  rw [hgrow]
  simp only [List.length_append, List.length_replicate]
  omega

/-- C7: the Windows/PE path of `dynrelocsym`.  For a relocation whose target
is a pending dynamic import (`plt == -2`, `got != -2`): the bytes appended to
`.rel` are exactly `FF 25 <abs32> 90 90` on the 32-bit target (`'8'`) and
`FF 24 25 <abs32> 90` on the 64-bit one (the `<abs32>` slot zero-filled and
carrying an `ADDR` relocation to the target), the target's `plt` becomes the
offset in `.rel` at which the stub begins (hence `≥ 0`), and the relocation
is rewritten to target `.rel` with that offset as addend.  For a relocation
whose target already has `plt ≥ 0`: the store (in particular `.rel`) is
untouched and the relocation is redirected the same way. -/
theorem dynrelocsym_pe_stub (cfg : Config) (st : Store) (r : Reloc) (t : Nat)
    (hsym : r.sym = some t)
    (hne : t ≠ cfg.relId)
    (h1tbl : cfg.inuxi1 = [0])
    (hnp : ((st cfg.relId).p.length : Int) = (st cfg.relId).size)
    (harch : cfg.thechar = thechar8 → cfg.ptrSize = 4) :
    ((st t).plt = -2 → (st t).got ≠ -2 →
      ((dynrelocsymWinStep cfg st r).1 cfg.relId).p
          = (st cfg.relId).p ++ (if cfg.thechar = thechar8 then peStub8 else peStub6) ∧
        ((dynrelocsymWinStep cfg st r).1 cfg.relId).r
          = (st cfg.relId).r
              ++ [{off := (st cfg.relId).size + (if cfg.thechar = thechar8 then 2 else 3),
                   siz := 4, rtype := D_ADDR, sym := some t, add := 0}] ∧
        ((dynrelocsymWinStep cfg st r).1 t).plt = (st cfg.relId).size ∧
        0 ≤ ((dynrelocsymWinStep cfg st r).1 t).plt ∧
        (dynrelocsymWinStep cfg st r).2
          = {r with sym := some cfg.relId, add := (st cfg.relId).size}) ∧
    (0 ≤ (st t).plt →
      (dynrelocsymWinStep cfg st r).1 = st ∧
        (dynrelocsymWinStep cfg st r).2
          = {r with sym := some cfg.relId, add := (st t).plt}) := by
  obtain ⟨roff, rsiz, rrtype, rsym, radd⟩ := r
  dsimp only at hsym
  subst hsym
  constructor
  · intro hplt hgot
    simp only [dynrelocsymWinStep]
    rw [if_pos ⟨hplt, hgot⟩]
    have hrel0 : updStore st t {st t with plt := (st cfg.relId).size} cfg.relId
        = st cfg.relId := updStore_ne _ _ _ _ (fun h => hne h.symm)
    by_cases hthe : cfg.thechar = thechar8
    · rw [if_pos hthe]
      set st1 := updStore st t {st t with plt := (st cfg.relId).size} with hst1
      rw [hrel0]
      have hP4 := harch hthe
      obtain ⟨p1, s1, r1, n1⟩ := adduint1_facts cfg (st cfg.relId) 0xff h1tbl (by norm_num) hnp
      obtain ⟨p2, s2, r2, n2⟩ := adduint1_facts cfg (adduintxx cfg (st cfg.relId) 0xff 1)
        0x25 h1tbl (by norm_num) n1
      obtain ⟨p3, s3, r3, n3⟩ := addaddrplus_facts cfg
        (adduintxx cfg (adduintxx cfg (st cfg.relId) 0xff 1) 0x25 1) t 0 n2
      obtain ⟨p4, s4, r4, n4⟩ := adduint1_facts cfg
        (addaddrplus cfg (adduintxx cfg (adduintxx cfg (st cfg.relId) 0xff 1) 0x25 1) t 0)
        0x90 h1tbl (by norm_num) n3
      obtain ⟨p5, s5, r5, n5⟩ := adduint1_facts cfg
        (adduintxx cfg
          (addaddrplus cfg (adduintxx cfg (adduintxx cfg (st cfg.relId) 0xff 1) 0x25 1) t 0)
          0x90 1)
        0x90 h1tbl (by norm_num) n4
      dsimp only
      refine ⟨?_, ?_, ?_, ?_, ?_⟩
      · rw [updStore_self, p5, p4, p3, p2, p1, hP4, if_pos hthe]
        simp [peStub8, List.append_assoc]
      · rw [updStore_self, r5, r4, r3, r2, r1, s2, s1, hP4, if_pos hthe]
        have h12 : (st cfg.relId).size + 1 + 1 = (st cfg.relId).size + 2 := by omega
        rw [h12]
      · rw [updStore_ne _ _ _ _ hne, hst1, updStore_self]
      · rw [updStore_ne _ _ _ _ hne, hst1, updStore_self]
        show (0 : Int) ≤ (st cfg.relId).size
        omega
      · rfl
    · rw [if_neg hthe]
      set st1 := updStore st t {st t with plt := (st cfg.relId).size} with hst1
      rw [hrel0]
      obtain ⟨p1, s1, r1, n1⟩ := adduint1_facts cfg (st cfg.relId) 0xff h1tbl (by norm_num) hnp
      obtain ⟨p2, s2, r2, n2⟩ := adduint1_facts cfg (adduintxx cfg (st cfg.relId) 0xff 1)
        0x24 h1tbl (by norm_num) n1
      obtain ⟨p3, s3, r3, n3⟩ := adduint1_facts cfg
        (adduintxx cfg (adduintxx cfg (st cfg.relId) 0xff 1) 0x24 1)
        0x25 h1tbl (by norm_num) n2
      obtain ⟨p4, s4, r4, n4⟩ := addaddrplus4_facts
        (adduintxx cfg (adduintxx cfg (adduintxx cfg (st cfg.relId) 0xff 1) 0x24 1) 0x25 1)
        t 0 n3
      obtain ⟨p5, s5, r5, n5⟩ := adduint1_facts cfg
        (addaddrplus4
          (adduintxx cfg (adduintxx cfg (adduintxx cfg (st cfg.relId) 0xff 1) 0x24 1) 0x25 1)
          t 0)
        0x90 h1tbl (by norm_num) n4
      dsimp only
      refine ⟨?_, ?_, ?_, ?_, ?_⟩
      · rw [updStore_self, p5, p4, p3, p2, p1, if_neg hthe]
        simp [peStub6, List.append_assoc]
      · rw [updStore_self, r5, r4, r3, r2, r1, s3, s2, s1, if_neg hthe]
        have h13 : (st cfg.relId).size + 1 + 1 + 1 = (st cfg.relId).size + 3 := by omega
        rw [h13]
      · rw [updStore_ne _ _ _ _ hne, hst1, updStore_self]
      · rw [updStore_ne _ _ _ _ hne, hst1, updStore_self]
        show (0 : Int) ≤ (st cfg.relId).size
        omega
      · rfl
  · intro hge
    simp only [dynrelocsymWinStep]
    rw [if_neg (by rintro ⟨h2, _⟩; omega), if_pos hge]
    exact ⟨rfl, rfl⟩

/-- C7 witness: the first relocation to a pending import on the 64-bit
target appends exactly `FF 24 25 00 00 00 00 90` to the empty `.rel`, sets
the target's `plt` to 0 (the stub start), and redirects the relocation to
`.rel` with addend 0. -/
theorem dynrelocsym_pe_stub_witness :
    (stC7 1).plt = -2 ∧ (stC7 1).got ≠ -2 ∧
      ((dynrelocsymWinStep cfgC7 stC7 rC7).1 cfgC7.relId).p = peStub6 ∧
      ((dynrelocsymWinStep cfgC7 stC7 rC7).1 1).plt = 0 ∧
      (dynrelocsymWinStep cfgC7 stC7 rC7).2
        = {rC7 with sym := some cfgC7.relId, add := 0} := by
  have h := (dynrelocsym_pe_stub cfgC7 stC7 rC7 1 rfl (by decide) rfl (by decide)
      (by decide)).1 (by decide) (by decide)
  obtain ⟨hp, _, hplt, _, hr⟩ := h
  refine ⟨by decide, by decide, ?_, ?_, ?_⟩
  · rw [hp]
    decide
  · rw [hplt]
    decide
  · rw [hr]
    decide

/-! ### Idempotence of the relocation resolver

`relocsym` computes every byte store from addresses, sizes, kinds and
relocation records, and rewrites only payload contents; so a second pass
recomputes the same stores.  `strip`-similarity captures "equal except
payload contents". -/

theorem similar_refl (st : Store) : similarS st st := fun _ => rfl

theorem similar_trans {st1 st2 st3 : Store} (h1 : similarS st1 st2)
    (h2 : similarS st2 st3) : similarS st1 st3 :=
  fun j => (h1 j).trans (h2 j)

theorem strip_plen {a b : Sym} (h : strip a = strip b) : a.p.length = b.p.length := by
  have hh := congrArg (fun s => s.p.length) h
  simpa [strip] using hh

theorem strip_type {a b : Sym} (h : strip a = strip b) : a.type = b.type := by
  have hh := congrArg Sym.type h
  exact hh

theorem strip_value {a b : Sym} (h : strip a = strip b) : a.value = b.value := by
  have hh := congrArg Sym.value h
  exact hh

theorem strip_size {a b : Sym} (h : strip a = strip b) : a.size = b.size := by
  have hh := congrArg Sym.size h
  exact hh

theorem strip_reachable {a b : Sym} (h : strip a = strip b) :
    a.reachable = b.reachable := by
  have hh := congrArg Sym.reachable h
  exact hh

theorem strip_outer {a b : Sym} (h : strip a = strip b) : a.outer = b.outer := by
  have hh := congrArg Sym.outer h
  exact hh

theorem strip_r {a b : Sym} (h : strip a = strip b) : a.r = b.r := by
  have hh := congrArg Sym.r h
  exact hh

theorem targType_congr {st1 st2 : Store} (hsim : similarS st1 st2) (r : Reloc) :
    targType st1 r = targType st2 r := by
  unfold targType
  cases hs : r.sym with
  | none => rfl
  | some t => exact strip_type (hsim t)

theorem symaddrO_congr {st1 st2 : Store} (hsim : similarS st1 st2) (x : Option Nat) :
    symaddrO st1 x = symaddrO st2 x := by
  unfold symaddrO symaddr
  cases x with
  | none => rfl
  | some t => exact strip_value (hsim t)

theorem outerRoot_congr {st1 st2 : Store} (hsim : similarS st1 st2) :
    ∀ (f : Nat) (t : Nat), outerRoot st1 f t = outerRoot st2 f t := by
  intro f
  induction f with
  | zero => intro t; rfl
  | succ f ih =>
    intro t
    show (match (st1 t).outer with
          | none => t
          | some u => outerRoot st1 f u) =
         (match (st2 t).outer with
          | none => t
          | some u => outerRoot st2 f u)
    rw [strip_outer (hsim t)]
    cases (st2 t).outer with
    | none => rfl
    | some u => exact ih u

theorem relocO_congr (cfg : Config) {st1 st2 : Store} (hsim : similarS st1 st2)
    (sval : Int) (r : Reloc) :
    relocO cfg st1 sval r = relocO cfg st2 sval r := by
  unfold relocO
  rw [symaddrO_congr hsim, targType_congr hsim]
  by_cases h1 : r.rtype = D_ADDR
  · rw [if_pos h1, if_pos h1, outerRoot_congr hsim]
    dsimp only [symaddr]
    rw [strip_value (hsim (outerRoot st2 outerFuel (r.sym.getD 0)))]
  · rw [if_neg h1, if_neg h1]
    by_cases h2 : r.rtype = D_PCREL
    · rw [if_pos h2, if_pos h2]
      cases hs : r.sym with
      | none => rfl
      | some t =>
        dsimp only [symaddr]
        rw [strip_value (hsim t)]
    · rw [if_neg h2, if_neg h2]
      by_cases h3 : r.rtype = D_SIZE
      · rw [if_pos h3, if_pos h3]
        cases hs : r.sym with
        | none => rfl
        | some t =>
          dsimp only
          rw [strip_size (hsim t)]
      · rw [if_neg h3, if_neg h3]

theorem relocRec_congr (cfg : Config) {st1 st2 : Store} (hsim : similarS st1 st2)
    (sval : Int) (np : Nat) (r : Reloc) :
    relocRec cfg st1 sval np r = relocRec cfg st2 sval np r := by
  unfold relocRec
  rw [notDefinedCond_false, notDefinedCond_false]
  rw [targType_congr hsim, relocO_congr cfg hsim]
  cases hs : r.sym with
  | none => rfl
  | some t =>
    dsimp only
    rw [strip_reachable (hsim t)]

theorem relocWritesSym_congr (cfg : Config) {st1 st2 : Store} (hsim : similarS st1 st2)
    {s1 s2 : Sym} (hs : strip s1 = strip s2) :
    relocWritesSym cfg st1 s1 = relocWritesSym cfg st2 s2 := by
  unfold relocWritesSym
  have hv : s1.value = s2.value := strip_value hs
  have hr : s1.r = s2.r := strip_r hs
  have hl : s1.p.length = s2.p.length := strip_plen hs
  rw [hv, hr, hl]
  simp only [relocRec_congr cfg hsim]

theorem relocsymP_strip (cfg : Config) (st : Store) (s : Sym) :
    strip (relocsymP cfg st s) = strip s := by
  unfold relocsymP strip
  simp [applyWrites_length]

theorem relocAll_similar (cfg : Config) (ids : List Nat) :
    ∀ st : Store, similarS st (relocAll cfg ids st) := by
  induction ids with
  | nil => intro st; exact similar_refl st
  | cons i rest ih =>
    intro st
    show similarS st (relocAll cfg rest (updStore st i (relocsymP cfg st (st i))))
    refine similar_trans ?_ (ih _)
    intro j
    by_cases hj : j = i
    · subst hj
      rw [updStore_self]
      exact (relocsymP_strip cfg st (st j)).symm
    · rw [updStore_ne _ _ _ _ hj]

theorem relocAll_char (cfg : Config) (ids : List Nat) (hnd : ids.Nodup) :
    ∀ (st st0 : Store), similarS st0 st → ∀ j,
      relocAll cfg ids st j
        = if j ∈ ids then
            {st j with p := applyWrites (relocWritesSym cfg st0 (st0 j)) ((st j).p)}
          else st j := by
  induction ids with
  | nil => intro st st0 _ j; simp [relocAll]
  | cons i rest ih =>
    intro st st0 hsim j
    have hnotin : i ∉ rest := (List.nodup_cons.mp hnd).1
    have hndr : rest.Nodup := (List.nodup_cons.mp hnd).2
    have hw : relocWritesSym cfg st (st i) = relocWritesSym cfg st0 (st0 i) :=
      relocWritesSym_congr cfg (fun k => (hsim k).symm) ((hsim i).symm)
    have hstep : relocAll cfg (i :: rest) st
        = relocAll cfg rest (updStore st i (relocsymP cfg st (st i))) := rfl
    have hsim1 : similarS st0 (updStore st i (relocsymP cfg st (st i))) := by
      refine similar_trans hsim (fun k => ?_)
      by_cases hk : k = i
      · subst hk
        rw [updStore_self]
        exact (relocsymP_strip cfg st (st k)).symm
      · rw [updStore_ne _ _ _ _ hk]
    rw [hstep, ih hndr (updStore st i (relocsymP cfg st (st i))) st0 hsim1 j]
    by_cases hj : j = i
    · subst hj
      rw [if_neg (fun h => hnotin h), if_pos (List.mem_cons_self ..)]
      rw [updStore_self]
      show relocsymP cfg st (st j) = _
      unfold relocsymP
      rw [hw]
    · rw [updStore_ne _ _ _ _ hj]
      by_cases hjr : j ∈ rest
      · rw [if_pos hjr, if_pos (List.mem_cons_of_mem i hjr)]
      · rw [if_neg hjr, if_neg (by simp [hj, hjr])]

/-- C9: running the relocation resolver (`relocsym` over `textp` then
`datap`) a second time on a laid-out symbol graph leaves every symbol —
in particular every payload byte — identical to the result of the first
run.  The byte stores depend only on values, sizes, kinds and relocation
records, which the first pass does not change, and re-applying identical
stores is a no-op. -/
theorem reloc_idempotent (cfg : Config) (textp datap : List Nat) (st : Store)
    (hnd : (textp ++ datap).Nodup) :
    reloc cfg textp datap (reloc cfg textp datap st) = reloc cfg textp datap st := by
  funext j
  unfold reloc
  have hsim : similarS st (relocAll cfg (textp ++ datap) st) :=
    relocAll_similar cfg (textp ++ datap) st
  have h1 := relocAll_char cfg (textp ++ datap) hnd st st (similar_refl st) j
  have h2 := relocAll_char cfg (textp ++ datap) hnd
    (relocAll cfg (textp ++ datap) st) st hsim j
  by_cases hj : j ∈ textp ++ datap
  · simp only [h2, h1, if_pos hj]
    rw [applyWrites_idem]
  · simp only [h2, h1, if_neg hj]

/-- C9 witness: a two-symbol graph (one text, one data id) run through the
resolver twice. -/
theorem reloc_idempotent_witness :
    ([0] ++ [1]).Nodup ∧
      reloc ({} : Config) [0] [1] (reloc ({} : Config) [0] [1] stS2)
        = reloc ({} : Config) [0] [1] stS2 :=
  ⟨by decide, reloc_idempotent {} [0] [1] stS2 (by decide)⟩

/-! ### Kind tracking through `dodata`

The byte-appending operations change a symbol's kind only from `0` to
`SDATA`; every kind already set survives them.  The section walks change
only the kind of the symbol they are placing (where the loop body assigns
one), which the generic `walkWhile_spec` captures. -/

theorem setuintxx_type (cfg : Config) (s : Sym) (off : Int) (v wid : Nat) :
    (setuintxx cfg s off v wid).type = if s.type = 0 then SDATA else s.type := by
  rw [setuintxx_eq]

theorem adduintxx_type (cfg : Config) (s : Sym) (v wid : Nat) :
    (adduintxx cfg s v wid).type = if s.type = 0 then SDATA else s.type :=
  setuintxx_type cfg s s.size v wid

theorem addpcrelplus_type (s : Sym) (t : Nat) (add : Int) :
    (addpcrelplus s t add).type = if s.type = 0 then SDATA else s.type := rfl

theorem gcaptrLoop_type (cfg : Config) (off a0 : Int) (cnt : Nat) (gc : Sym)
    (h : gc.type ≠ 0) : (gcaptrLoop cfg off a0 cnt gc).type = gc.type := by
  induction cnt with
  | zero => simp [gcaptrLoop]
  | succ j ih =>
    have hunf : gcaptrLoop cfg off a0 (j + 1) gc
        = adduintxx cfg (adduintxx cfg (gcaptrLoop cfg off a0 j gc) GC_APTR cfg.ptrSize)
            (intToU64 (off + a0 + (j : Int) * cfg.ptrSize)) cfg.ptrSize := by
      unfold gcaptrLoop
      rw [List.range_succ, List.foldl_append, List.foldl_cons, List.foldl_nil]
    rw [hunf]
    simp only [adduintxx_type, ih, if_neg h]

theorem gcaddsym_type (cfg : Config) (gc s : Sym) (off : Int)
    (h : gc.type ≠ 0) : (gcaddsym cfg gc s off).type = gc.type := by
  unfold gcaddsym
  by_cases h1 : s.size < (cfg.ptrSize : Int)
  · rw [if_pos h1]
  · rw [if_neg h1]
    by_cases h2 : s.name = dotString
    · rw [if_pos h2]
    · rw [if_neg h2]
      cases hg : s.gotype with
      | none => exact gcaptrLoop_type cfg off _ _ gc h
      | some gt =>
        dsimp only
        have t1 : (adduintxx cfg gc GC_CALL cfg.ptrSize).type = gc.type := by
          rw [adduintxx_type, if_neg h]
        have t2 : (adduintxx cfg (adduintxx cfg gc GC_CALL cfg.ptrSize)
            (intToU64 off) cfg.ptrSize).type = gc.type := by
          rw [adduintxx_type, t1, if_neg h]
        have t3 : (addpcrelplus
            (adduintxx cfg (adduintxx cfg gc GC_CALL cfg.ptrSize) (intToU64 off) cfg.ptrSize)
            (cfg.decodegc gt) (3 * (cfg.ptrSize : Int) + 4)).type = gc.type := by
          rw [addpcrelplus_type, t2, if_neg h]
        by_cases h8 : cfg.ptrSize = 8
        · rw [if_pos h8]
          rw [adduintxx_type, t3, if_neg h]
        · rw [if_neg h8]
          exact t3

/-- Updating a single symbol through a kind-monotone operation preserves the
kind of every symbol whose kind is set. -/
theorem updApply_type_pres (st : Store) (g : Nat) (f : Sym → Sym)
    (hf : ∀ s : Sym, s.type ≠ 0 → (f s).type = s.type) (j : Nat)
    (hj : (st j).type ≠ 0) :
    ((updStore st g (f (st g))) j).type = (st j).type := by
  by_cases hjg : j = g
  · subst hjg
    rw [updStore_self]
    exact hf (st j) hj
  · rw [updStore_ne _ _ _ _ hjg]

/-- The generic section loop of `dodata`: it consumes the maximal prefix on
which the predicate holds, sets each consumed symbol's kind to the section's
kind (or leaves it untouched when the loop body assigns none), and leaves
the kind of everything else alone (among symbols whose kind is set). -/
theorem walkWhile_spec (pred : Nat → Bool) (body : Store → Int → Nat → Store × Int)
    (tc : Option Nat)
    (Hc : ∀ c, tc = some c → c ≠ 0)
    (Hown : ∀ st ds i, (st i).type ≠ 0 →
      ((body st ds i).1 i).type = tc.getD (st i).type)
    (Hoth : ∀ st ds i j, j ≠ i → (st j).type ≠ 0 →
      ((body st ds i).1 j).type = (st j).type) :
    ∀ (l : List Nat) (st : Store) (ds : Int), l.Nodup → (∀ i ∈ l, (st i).type ≠ 0) →
      ∃ pre rest,
        l = pre ++ rest ∧
        (walkWhile pred body st ds l).2.2 = rest ∧
        (∀ i ∈ pre, pred (st i).type = true) ∧
        (∀ x t', rest = x :: t' → pred (st x).type = false) ∧
        (∀ i ∈ pre, ((walkWhile pred body st ds l).1 i).type
          = tc.getD ((st i).type)) ∧
        (∀ j, j ∉ pre → (st j).type ≠ 0 →
          ((walkWhile pred body st ds l).1 j).type = (st j).type) := by
  intro l
  induction l with
  | nil =>
    intro st ds _ _
    refine ⟨[], [], rfl, rfl, ?_, ?_, ?_, ?_⟩
    · intro i hi
      exact absurd hi (List.not_mem_nil i)
    · intro x t' h
      exact nomatch h
    · intro i hi
      exact absurd hi (List.not_mem_nil i)
    · intro j _ _
      rfl
  | cons i l ih =>
    intro st ds hnd hnz
    have hil : i ∉ l := (List.nodup_cons.mp hnd).1
    have hndl : l.Nodup := (List.nodup_cons.mp hnd).2
    have hnzi : (st i).type ≠ 0 := hnz i (List.mem_cons_self ..)
    by_cases hp : pred (st i).type
    · have hstep : walkWhile pred body st ds (i :: l)
          = walkWhile pred body (body st ds i).1 (body st ds i).2 l := by
        rw [walkWhile, if_pos hp]
      have hnz1 : ∀ x ∈ l, ((body st ds i).1 x).type ≠ 0 := by
        intro x hx
        rw [Hoth st ds i x (fun he => hil (he ▸ hx)) (hnz x (List.mem_cons_of_mem i hx))]
        exact hnz x (List.mem_cons_of_mem i hx)
      obtain ⟨pre', rest', hsplit', hcur', hpred', hfail', hown', hpres'⟩ :=
        ih (body st ds i).1 (body st ds i).2 hndl hnz1
      refine ⟨i :: pre', rest', by rw [List.cons_append, hsplit'], by rw [hstep]; exact hcur',
        ?_, ?_, ?_, ?_⟩
      · intro x hx
        rcases List.mem_cons.mp hx with hxe | hxm
        · subst hxe; exact hp
        · have hxl : x ∈ l := hsplit' ▸ List.mem_append_left rest' hxm
          have hxi : x ≠ i := fun he => hil (he ▸ hxl)
          have := hpred' x hxm
          rwa [Hoth st ds i x hxi (hnz x (List.mem_cons_of_mem i hxl))] at this
      · intro x t' hx
        have hxl : x ∈ l := by
          rw [hsplit', hx]
          exact List.mem_append_right pre' (List.mem_cons_self ..)
        have hxi : x ≠ i := fun he => hil (he ▸ hxl)
        have := hfail' x t' hx
        rwa [Hoth st ds i x hxi (hnz x (List.mem_cons_of_mem i hxl))] at this
      · intro x hx
        rcases List.mem_cons.mp hx with hxe | hxm
        · subst hxe
          rw [hstep]
          have hbnz : ((body st ds x).1 x).type ≠ 0 := by
            rw [Hown st ds x hnzi]
            cases tc with
            | none => simpa using hnzi
            | some c => simpa using Hc c rfl
          have hxp : x ∉ pre' := fun hm =>
            hil (hsplit' ▸ List.mem_append_left rest' hm)
          rw [hpres' x hxp hbnz, Hown st ds x hnzi]
        · have hxl : x ∈ l := hsplit' ▸ List.mem_append_left rest' hxm
          have hxi : x ≠ i := fun he => hil (he ▸ hxl)
          rw [hstep]
          have := hown' x hxm
          rwa [Hoth st ds i x hxi (hnz x (List.mem_cons_of_mem i hxl))] at this
      · intro j hj hjz
        have hji : j ≠ i := fun he => hj (he ▸ List.mem_cons_self ..)
        have hjp : j ∉ pre' := fun hm => hj (List.mem_cons_of_mem i hm)
        rw [hstep]
        have hbj : ((body st ds i).1 j).type = (st j).type := Hoth st ds i j hji hjz
        rw [hpres' j hjp (by rw [hbj]; exact hjz), hbj]
    · have hstep : walkWhile pred body st ds (i :: l) = (st, ds, i :: l) := by
        rw [walkWhile, if_neg hp]
      refine ⟨[], i :: l, rfl, by rw [hstep], by simp, ?_, by simp, ?_⟩
      · intro x t' hx
        have : x = i := by
          injection hx with h1 _
          exact h1.symm
        subst this
        simpa using hp
      · intro j _ _
        rw [hstep]

/-! ### `dodata`: the section walks and the kind dichotomy (C5)

The `.bss` and `.noptrbss` loops of `dodata` assign sections and addresses
but never the kind, so the "every symbol normalized to `DATA`/`SRODATA`"
claim fails for them.  The machinery below runs the generic `walkWhile_spec`
over each section loop, tracking for every `datap` member whether its kind
has been set (to `SDATA` during the `segdata` walks, to `SRODATA` during the
`segtext` walks) or left at its pre-layout value. -/

theorem hc_some (c0 : Nat) (h0 : c0 ≠ 0) : ∀ c, some c0 = some c → c ≠ 0 := by
  intro c hc
  simp only [Option.some.injEq] at hc
  subst hc
  exact h0

theorem dynreloc_d (cfg : Config) (textp datap : List Nat) (st : Store)
    (h1 : cfg.debug_d = true) (h2 : cfg.headtype ≠ Hwindows) :
    dynreloc cfg textp datap st = st := by
  unfold dynreloc
  rw [if_pos ⟨h1, h2⟩]

theorem datcmp_le_type (a b : Sym) (h : datcmp a b ≤ 0) : a.type ≤ b.type := by
  unfold datcmp at h
  by_cases ht : a.type = b.type
  · omega
  · rw [if_pos ht] at h
    omega

theorem rem_lb (st0 : Store) (b : Nat) (l pre rem : List Nat)
    (hsp : l = pre ++ rem)
    (hpw : l.Pairwise (fun i j => (st0 i).type ≤ (st0 j).type))
    (hhead : ∀ x t', rem = x :: t' → b ≤ (st0 x).type) :
    ∀ i ∈ rem, b ≤ (st0 i).type := by
  cases rem with
  | nil => intro i hi; exact absurd hi (List.not_mem_nil i)
  | cons x t' =>
    intro i hi
    have hpw2 : (x :: t').Pairwise (fun i j => (st0 i).type ≤ (st0 j).type) := by
      rw [hsp] at hpw
      exact (List.pairwise_append.mp hpw).2.1
    have hx := hhead x t' rfl
    rcases List.mem_cons.mp hi with he | htl
    · rw [he]; exact hx
    · exact le_trans hx ((List.pairwise_cons.mp hpw2).1 i htl)

theorem bodyWElf_own (cfg : Config) (st : Store) (ds : Int) (i : Nat) :
    ((bodyWElf cfg st ds i).1 i).type = SDATA := by
  unfold bodyWElf
  dsimp only
  rw [updStore_self]

theorem bodyWElf_oth (cfg : Config) (st : Store) (ds : Int) (i j : Nat) (h : j ≠ i) :
    ((bodyWElf cfg st ds i).1 j).type = (st j).type := by
  unfold bodyWElf
  dsimp only
  rw [updStore_ne _ _ _ _ h]

theorem bodyNoptrdata_own (cfg : Config) (st : Store) (ds : Int) (i : Nat) :
    ((bodyNoptrdata cfg st ds i).1 i).type = SDATA := by
  unfold bodyNoptrdata
  dsimp only
  rw [updStore_self]

theorem bodyNoptrdata_oth (cfg : Config) (st : Store) (ds : Int) (i j : Nat) (h : j ≠ i) :
    ((bodyNoptrdata cfg st ds i).1 j).type = (st j).type := by
  unfold bodyNoptrdata
  dsimp only
  rw [updStore_ne _ _ _ _ h]

theorem bodyRodata_own (cfg : Config) (st : Store) (ds : Int) (i : Nat) :
    ((bodyRodata cfg st ds i).1 i).type = SRODATA := by
  unfold bodyRodata
  dsimp only
  rw [updStore_self]

theorem bodyRodata_oth (cfg : Config) (st : Store) (ds : Int) (i j : Nat) (h : j ≠ i) :
    ((bodyRodata cfg st ds i).1 j).type = (st j).type := by
  unfold bodyRodata
  dsimp only
  rw [updStore_ne _ _ _ _ h]

theorem bodySimpleRO_own (tag : Nat) (st : Store) (ds : Int) (i : Nat) :
    ((bodySimpleRO tag st ds i).1 i).type = SRODATA := by
  unfold bodySimpleRO
  dsimp only
  rw [updStore_self]

theorem bodySimpleRO_oth (tag : Nat) (st : Store) (ds : Int) (i j : Nat) (h : j ≠ i) :
    ((bodySimpleRO tag st ds i).1 j).type = (st j).type := by
  unfold bodySimpleRO
  dsimp only
  rw [updStore_ne _ _ _ _ h]

theorem bodyRoElf_own (cfg : Config) (st : Store) (ds : Int) (i : Nat) :
    ((bodyRoElf cfg st ds i).1 i).type = SRODATA := by
  unfold bodyRoElf
  dsimp only
  rw [updStore_self]

theorem bodyRoElf_oth (cfg : Config) (st : Store) (ds : Int) (i j : Nat) (h : j ≠ i) :
    ((bodyRoElf cfg st ds i).1 j).type = (st j).type := by
  unfold bodyRoElf
  dsimp only
  rw [updStore_ne _ _ _ _ h]

theorem bodyNoptrbss_own (cfg : Config) (st : Store) (ds : Int) (i : Nat) :
    ((bodyNoptrbss cfg st ds i).1 i).type = (st i).type := by
  unfold bodyNoptrbss
  dsimp only
  rw [updStore_self]

theorem bodyNoptrbss_oth (cfg : Config) (st : Store) (ds : Int) (i j : Nat) (h : j ≠ i) :
    ((bodyNoptrbss cfg st ds i).1 j).type = (st j).type := by
  unfold bodyNoptrbss
  dsimp only
  rw [updStore_ne _ _ _ _ h]

theorem bodyData_own (cfg : Config) (gcd : Nat) (dstart : Int)
    (st : Store) (ds : Int) (i : Nat) :
    ((bodyData cfg gcd dstart st ds i).1 i).type = SDATA := by
  unfold bodyData
  dsimp only
  by_cases hg : i = gcd
  · subst hg
    rw [updStore_self, gcaddsym_type]
    · rw [updStore_self]
    · rw [updStore_self]
      show SDATA ≠ 0
      decide
  · rw [updStore_ne _ _ _ _ hg, updStore_self]

theorem bodyData_oth (cfg : Config) (gcd : Nat) (dstart : Int)
    (st : Store) (ds : Int) (i j : Nat) (hji : j ≠ i) (hjz : (st j).type ≠ 0) :
    ((bodyData cfg gcd dstart st ds i).1 j).type = (st j).type := by
  unfold bodyData
  dsimp only
  by_cases hg : j = gcd
  · subst hg
    rw [updStore_self, gcaddsym_type]
    · rw [updStore_ne _ _ _ _ hji]
    · rw [updStore_ne _ _ _ _ hji]
      exact hjz
  · rw [updStore_ne _ _ _ _ hg, updStore_ne _ _ _ _ hji]

theorem bodyBss_own (cfg : Config) (gcb : Nat) (bstart : Int)
    (st : Store) (ds : Int) (i : Nat) (h : (st i).type ≠ 0) :
    ((bodyBss cfg gcb bstart st ds i).1 i).type = (st i).type := by
  unfold bodyBss
  dsimp only
  by_cases hg : i = gcb
  · subst hg
    rw [updStore_self, gcaddsym_type]
    · rw [updStore_self]
    · rw [updStore_self]
      exact h
  · rw [updStore_ne _ _ _ _ hg, updStore_self]

theorem bodyBss_oth (cfg : Config) (gcb : Nat) (bstart : Int)
    (st : Store) (ds : Int) (i j : Nat) (hji : j ≠ i) (hjz : (st j).type ≠ 0) :
    ((bodyBss cfg gcb bstart st ds i).1 j).type = (st j).type := by
  unfold bodyBss
  dsimp only
  by_cases hg : j = gcb
  · subst hg
    rw [updStore_self, gcaddsym_type]
    · rw [updStore_ne _ _ _ _ hji]
    · rw [updStore_ne _ _ _ _ hji]
      exact hjz
  · rw [updStore_ne _ _ _ _ hg, updStore_ne _ _ _ _ hji]

/-- The `GC_END`-append / length-back-patch pair that closes each GC symbol
preserves every set kind. -/
theorem gcwrap_type (cfg : Config) (stc : Store) (g : Nat) (len : Int) (j : Nat)
    (hj : (stc j).type ≠ 0) :
    ((updStore (updStore stc g (adduintxx cfg (stc g) GC_END cfg.ptrSize)) g
        (setuintxx cfg ((updStore stc g (adduintxx cfg (stc g) GC_END cfg.ptrSize)) g)
          0 (intToU64 len) cfg.ptrSize)) j).type = (stc j).type := by
  have h1 : ((updStore stc g (adduintxx cfg (stc g) GC_END cfg.ptrSize)) j).type
      = (stc j).type :=
    updApply_type_pres stc g (fun s => adduintxx cfg s GC_END cfg.ptrSize)
      (fun s hs => by rw [adduintxx_type, if_neg hs]) j hj
  have h2 := updApply_type_pres (updStore stc g (adduintxx cfg (stc g) GC_END cfg.ptrSize)) g
      (fun s => setuintxx cfg s 0 (intToU64 len) cfg.ptrSize)
      (fun s hs => by rw [setuintxx_type, if_neg hs]) j (by rw [h1]; exact hj)
  exact h2.trans h1

/-- One section loop, invariant form: given that `datap` splits into the
already-walked `done` part (whose members satisfy the tracked kind property
`P`) and the remainder `rem` (whose members still hold their pre-layout
kinds from `st0`), running the loop on `rem` extends `done` by the consumed
prefix and keeps the remainder untouched. -/
theorem walk_inv (pred : Nat → Bool) (body : Store → Int → Nat → Store × Int)
    (tc : Option Nat) (P : Nat → Nat → Prop)
    (Hc : ∀ c, tc = some c → c ≠ 0)
    (Hown : ∀ st ds i, (st i).type ≠ 0 → ((body st ds i).1 i).type = tc.getD (st i).type)
    (Hoth : ∀ st ds i j, j ≠ i → (st j).type ≠ 0 → ((body st ds i).1 j).type = (st j).type)
    (st0 : Store) (datap done rem : List Nat) (st : Store) (ds : Int)
    (hnd : datap.Nodup)
    (hsplit : datap = done ++ rem)
    (hP0 : ∀ i t, P i t → t ≠ 0)
    (hdone : ∀ i ∈ done, P i ((st i).type))
    (hrem : ∀ i ∈ rem, (st i).type = (st0 i).type)
    (hnz : ∀ i ∈ rem, (st0 i).type ≠ 0)
    (hpre : ∀ i ∈ rem, pred ((st0 i).type) = true → P i (tc.getD ((st0 i).type))) :
    ∃ pre,
      rem = pre ++ (walkWhile pred body st ds rem).2.2
      ∧ (∀ i ∈ done ++ pre, P i (((walkWhile pred body st ds rem).1 i).type))
      ∧ (∀ i ∈ (walkWhile pred body st ds rem).2.2,
          ((walkWhile pred body st ds rem).1 i).type = (st0 i).type)
      ∧ (∀ x t', (walkWhile pred body st ds rem).2.2 = x :: t'
          → pred ((st0 x).type) = false) := by
  have hnda : (done ++ rem).Nodup := hsplit ▸ hnd
  have hndr : rem.Nodup := ((List.nodup_append.mp hnda).2).1
  have hdisj : ∀ i ∈ done, i ∉ rem := by
    have h := (List.nodup_append.mp hnda).2.2
    exact fun i hi hir => h hi hir
  have hnzc : ∀ i ∈ rem, (st i).type ≠ 0 := fun i hi => by
    rw [hrem i hi]; exact hnz i hi
  obtain ⟨pre, rest, hsp, hcur, hpredT, hfail, hown, hpres⟩ :=
    walkWhile_spec pred body tc Hc Hown Hoth rem st ds hndr hnzc
  have hpsub : ∀ i ∈ pre, i ∈ rem := fun i hi => hsp ▸ List.mem_append_left rest hi
  have hrsub : ∀ i ∈ rest, i ∈ rem := fun i hi => hsp ▸ List.mem_append_right pre hi
  have hdisj2 : ∀ i ∈ pre, i ∉ rest := by
    have h := (List.nodup_append.mp (hsp ▸ hndr)).2.2
    exact fun i hi hir => h hi hir
  refine ⟨pre, ?_, ?_, ?_, ?_⟩
  · rw [hcur]
    exact hsp
  · intro i hi
    rcases List.mem_append.mp hi with hid | hip
    · have hPi := hdone i hid
      have hnzi : (st i).type ≠ 0 := hP0 i _ hPi
      have hnp : i ∉ pre := fun hp => hdisj i hid (hpsub i hp)
      rw [hpres i hnp hnzi]
      exact hPi
    · have hir : i ∈ rem := hpsub i hip
      have h1 := hown i hip
      rw [hrem i hir] at h1
      rw [h1]
      apply hpre i hir
      have h2 := hpredT i hip
      rwa [hrem i hir] at h2
  · intro i hi
    have hirest : i ∈ rest := hcur ▸ hi
    have hirem : i ∈ rem := hrsub i hirest
    have hnp : i ∉ pre := fun hp => hdisj2 i hp hirest
    rw [hpres i hnp (hnzc i hirem), hrem i hirem]
  · intro x t' hx
    have hxr : rest = x :: t' := by rw [← hcur]; exact hx
    have h := hfail x t' hxr
    have hxrem : x ∈ rem := hrsub x (hxr ▸ List.mem_cons_self ..)
    rwa [hrem x hxrem] at h

/-- `walk_inv` for the read-only (`segtext`) loops, all of which set the
kind to `SRODATA`. -/
theorem walk_ro (pred : Nat → Bool) (body : Store → Int → Nat → Store × Int)
    (Hown : ∀ st ds i, ((body st ds i).1 i).type = SRODATA)
    (Hoth : ∀ st ds i j, j ≠ i → (st j).type ≠ 0 → ((body st ds i).1 j).type = (st j).type)
    (st0 : Store) (datap done rem : List Nat) (st : Store) (ds : Int)
    (hnd : datap.Nodup) (hsplit : datap = done ++ rem)
    (hdone : ∀ i ∈ done, (st i).type = SRODATA)
    (hrem : ∀ i ∈ rem, (st i).type = (st0 i).type)
    (hnz : ∀ i ∈ rem, (st0 i).type ≠ 0) :
    ∃ pre,
      rem = pre ++ (walkWhile pred body st ds rem).2.2
      ∧ (∀ i ∈ done ++ pre, ((walkWhile pred body st ds rem).1 i).type = SRODATA)
      ∧ (∀ i ∈ (walkWhile pred body st ds rem).2.2,
          ((walkWhile pred body st ds rem).1 i).type = (st0 i).type)
      ∧ (∀ x t', (walkWhile pred body st ds rem).2.2 = x :: t'
          → pred ((st0 x).type) = false) :=
  walk_inv pred body (some SRODATA) (fun _ t => t = SRODATA)
    (hc_some SRODATA (by decide))
    (fun st ds i _ => Hown st ds i) Hoth st0 datap done rem st ds hnd hsplit
    (fun i t ht => by rw [ht]; decide) hdone hrem hnz
    (fun i _ _ => rfl)

/-- The `segtext` walks of `dodata`: every consumed symbol's kind becomes
`SRODATA`; a symbol the walks do not reach keeps its kind, which (the list
being kind-sorted) is at least `SELFSECT`. -/
theorem segtextPhase_kinds (cfg : Config) (st0 : Store) (datap : List Nat)
    (hnd : datap.Nodup)
    (hnz : ∀ i ∈ datap, (st0 i).type ≠ 0)
    (hpw : datap.Pairwise (fun i j => (st0 i).type ≤ (st0 j).type)) :
    ∀ i ∈ datap,
      ((segtextPhase cfg st0 datap).1 i).type = SRODATA
      ∨ (((segtextPhase cfg st0 datap).1 i).type = (st0 i).type
          ∧ SELFSECT ≤ (st0 i).type) := by
  unfold segtextPhase
  dsimp only
  set W0 := walkWhile (fun t => decide (t < STYPELINK)) (bodyRodata cfg) st0 0 datap with hW0
  set W1 := walkWhile (fun t => decide (t = STYPELINK)) (bodySimpleRO sectTypelink)
    W0.1 (rnd W0.2.1 cfg.ptrSize) W0.2.2 with hW1
  set W2 := walkWhile (fun t => decide (t = SGCDATA)) (bodySimpleRO sectGcdata)
    W1.1 (rnd W1.2.1 cfg.ptrSize) W1.2.2 with hW2
  set W3 := walkWhile (fun t => decide (t = SGCBSS)) (bodySimpleRO sectGcbss)
    W2.1 (rnd W2.2.1 cfg.ptrSize) W2.2.2 with hW3
  set W4 := walkWhile (fun t => decide (t < SPCLNTAB)) (bodySimpleRO sectSymtab)
    W3.1 (rnd W3.2.1 cfg.ptrSize) W3.2.2 with hW4
  set W5 := walkWhile (fun t => decide (t < SELFROSECT)) (bodySimpleRO sectPclntab)
    W4.1 (rnd W4.2.1 cfg.ptrSize) W4.2.2 with hW5
  obtain ⟨p0, he0, hd0, hr0, hf0⟩ := walk_ro (fun t => decide (t < STYPELINK)) (bodyRodata cfg)
    (bodyRodata_own cfg) (fun st ds i j hj _ => bodyRodata_oth cfg st ds i j hj)
    st0 datap [] datap st0 0 hnd (List.nil_append datap).symm
    (fun i hi => absurd hi (List.not_mem_nil i)) (fun i _ => rfl) hnz
  have hs1 : datap = ([] ++ p0) ++ W0.2.2 := by rw [List.nil_append]; exact he0
  have hnz1 : ∀ i ∈ W0.2.2, (st0 i).type ≠ 0 :=
    fun i hi => hnz i (by rw [he0]; exact List.mem_append_right p0 hi)
  obtain ⟨p1, he1, hd1, hr1, hf1⟩ := walk_ro (fun t => decide (t = STYPELINK))
    (bodySimpleRO sectTypelink)
    (bodySimpleRO_own sectTypelink) (fun st ds i j hj _ => bodySimpleRO_oth sectTypelink st ds i j hj)
    st0 datap ([] ++ p0) W0.2.2 W0.1 (rnd W0.2.1 cfg.ptrSize) hnd hs1 hd0 hr0 hnz1
  have hs2 : datap = (([] ++ p0) ++ p1) ++ W1.2.2 := by
    rw [List.append_assoc, ← he1]; exact hs1
  have hnz2 : ∀ i ∈ W1.2.2, (st0 i).type ≠ 0 :=
    fun i hi => hnz1 i (by rw [he1]; exact List.mem_append_right p1 hi)
  obtain ⟨p2, he2, hd2, hr2, hf2⟩ := walk_ro (fun t => decide (t = SGCDATA))
    (bodySimpleRO sectGcdata)
    (bodySimpleRO_own sectGcdata) (fun st ds i j hj _ => bodySimpleRO_oth sectGcdata st ds i j hj)
    st0 datap (([] ++ p0) ++ p1) W1.2.2 W1.1 (rnd W1.2.1 cfg.ptrSize) hnd hs2 hd1 hr1 hnz2
  have hs3 : datap = ((([] ++ p0) ++ p1) ++ p2) ++ W2.2.2 := by
    rw [List.append_assoc, ← he2]; exact hs2
  have hnz3 : ∀ i ∈ W2.2.2, (st0 i).type ≠ 0 :=
    fun i hi => hnz2 i (by rw [he2]; exact List.mem_append_right p2 hi)
  obtain ⟨p3, he3, hd3, hr3, hf3⟩ := walk_ro (fun t => decide (t = SGCBSS))
    (bodySimpleRO sectGcbss)
    (bodySimpleRO_own sectGcbss) (fun st ds i j hj _ => bodySimpleRO_oth sectGcbss st ds i j hj)
    st0 datap ((([] ++ p0) ++ p1) ++ p2) W2.2.2 W2.1 (rnd W2.2.1 cfg.ptrSize) hnd hs3 hd2 hr2 hnz3
  have hs4 : datap = (((([] ++ p0) ++ p1) ++ p2) ++ p3) ++ W3.2.2 := by
    rw [List.append_assoc, ← he3]; exact hs3
  have hnz4 : ∀ i ∈ W3.2.2, (st0 i).type ≠ 0 :=
    fun i hi => hnz3 i (by rw [he3]; exact List.mem_append_right p3 hi)
  obtain ⟨p4, he4, hd4, hr4, hf4⟩ := walk_ro (fun t => decide (t < SPCLNTAB))
    (bodySimpleRO sectSymtab)
    (bodySimpleRO_own sectSymtab) (fun st ds i j hj _ => bodySimpleRO_oth sectSymtab st ds i j hj)
    st0 datap (((([] ++ p0) ++ p1) ++ p2) ++ p3) W3.2.2 W3.1 (rnd W3.2.1 cfg.ptrSize) hnd hs4 hd3 hr3 hnz4
  have hs5 : datap = ((((([] ++ p0) ++ p1) ++ p2) ++ p3) ++ p4) ++ W4.2.2 := by
    rw [List.append_assoc, ← he4]; exact hs4
  have hnz5 : ∀ i ∈ W4.2.2, (st0 i).type ≠ 0 :=
    fun i hi => hnz4 i (by rw [he4]; exact List.mem_append_right p4 hi)
  obtain ⟨p5, he5, hd5, hr5, hf5⟩ := walk_ro (fun t => decide (t < SELFROSECT))
    (bodySimpleRO sectPclntab)
    (bodySimpleRO_own sectPclntab) (fun st ds i j hj _ => bodySimpleRO_oth sectPclntab st ds i j hj)
    st0 datap ((((([] ++ p0) ++ p1) ++ p2) ++ p3) ++ p4) W4.2.2 W4.1 (rnd W4.2.1 cfg.ptrSize) hnd hs5 hd4 hr4 hnz5
  have hs6 : datap = (((((([] ++ p0) ++ p1) ++ p2) ++ p3) ++ p4) ++ p5) ++ W5.2.2 := by
    rw [List.append_assoc, ← he5]; exact hs5
  have hnz6 : ∀ i ∈ W5.2.2, (st0 i).type ≠ 0 :=
    fun i hi => hnz5 i (by rw [he5]; exact List.mem_append_right p5 hi)
  obtain ⟨p6, he6, hd6, hr6, hf6⟩ := walk_ro (fun t => decide (t < SELFSECT))
    (bodyRoElf cfg)
    (bodyRoElf_own cfg) (fun st ds i j hj _ => bodyRoElf_oth cfg st ds i j hj)
    st0 datap (((((([] ++ p0) ++ p1) ++ p2) ++ p3) ++ p4) ++ p5) W5.2.2 W5.1
    (rnd W5.2.1 cfg.ptrSize) hnd hs6 hd5 hr5 hnz6
  have hs7 : datap
      = ((((((([] ++ p0) ++ p1) ++ p2) ++ p3) ++ p4) ++ p5) ++ p6)
        ++ (walkWhile (fun t => decide (t < SELFSECT)) (bodyRoElf cfg)
              W5.1 (rnd W5.2.1 cfg.ptrSize) W5.2.2).2.2 := by
    rw [List.append_assoc, ← he6]; exact hs6
  intro i hi
  have hi7 := hi
  rw [hs7] at hi7
  rcases List.mem_append.mp hi7 with hdm | hrm
  · exact Or.inl (hd6 i hdm)
  · refine Or.inr ⟨hr6 i hrm, ?_⟩
    have hlb := rem_lb st0 SELFSECT datap _ _ hs7 hpw
      (fun x t' hx => by
        have h := of_decide_eq_false (hf6 x t' hx)
        omega)
    exact hlb i hrm

/-- The `segdata` walks of `dodata` (non-shared mode): symbols whose kind is
below `SELFSECT` are skipped untouched; kinds in `[SELFSECT, SBSS)` are
normalized to `SDATA` by the writable-section loops; kinds at or above
`SBSS` (the `.bss`/`.noptrbss`/TLS symbols) are placed but keep their
kinds. -/
theorem segdataPhase_kinds (cfg : Config) (gcd gcb : Nat) (st0 : Store) (datap : List Nat)
    (hsh : cfg.flag_shared = false)
    (hnd : datap.Nodup)
    (hmem : ∀ i ∈ datap, STEXT < (st0 i).type ∧ (st0 i).type < SXREF)
    (hpw : datap.Pairwise (fun i j => (st0 i).type ≤ (st0 j).type)) :
    ∀ i ∈ datap,
      ((st0 i).type < SELFSECT ∧ STEXT < (st0 i).type
        ∧ ((segdataPhase cfg gcd gcb st0 datap).1 i).type = (st0 i).type)
      ∨ (SELFSECT ≤ (st0 i).type ∧ (st0 i).type < SBSS
        ∧ ((segdataPhase cfg gcd gcb st0 datap).1 i).type = SDATA)
      ∨ (SBSS ≤ (st0 i).type ∧ (st0 i).type < SXREF
        ∧ ((segdataPhase cfg gcd gcb st0 datap).1 i).type = (st0 i).type) := by
  have hnzD : ∀ i ∈ datap, (st0 i).type ≠ 0 := by
    intro i hi
    have h := (hmem i hi).1
    simp only [STEXT] at h
    omega
  unfold segdataPhase
  dsimp only
  rw [if_neg (by simp [hsh] : ¬(cfg.flag_shared = true))]
  dsimp only
  set P : Nat → Nat → Prop := fun i t =>
    ((st0 i).type < SELFSECT ∧ STEXT < (st0 i).type ∧ t = (st0 i).type)
    ∨ (SELFSECT ≤ (st0 i).type ∧ (st0 i).type < SBSS ∧ t = SDATA)
    ∨ (SBSS ≤ (st0 i).type ∧ (st0 i).type < SXREF ∧ t = (st0 i).type) with hPdef
  have hP0 : ∀ i t, P i t → t ≠ 0 := by
    intro i t ht
    simp only [hPdef] at ht
    rcases ht with ⟨h1, h2, h3⟩ | ⟨h1, h2, h3⟩ | ⟨h1, h2, h3⟩ <;> rw [h3] <;>
      simp only [STEXT, SDATA, SBSS, SXREF, SELFSECT] at * <;> omega
  set V0 := walkWhile (fun t => decide (t < SELFSECT)) (fun st ds _ => (st, ds)) st0 0 datap
    with hV0
  set V1 := walkWhile (fun t => decide (t < SNOPTRDATA)) (bodyWElf cfg)
    V0.1 V0.2.1 V0.2.2 with hV1
  set V2 := walkWhile (fun t => decide (t < SDATARELRO)) (bodyNoptrdata cfg)
    V1.1 V1.2.1 V1.2.2 with hV2
  set V4 := walkWhile (fun t => decide (t < SBSS)) (bodyData cfg gcd (rnd V2.2.1 cfg.ptrSize))
    V2.1 (rnd V2.2.1 cfg.ptrSize) V2.2.2 with hV4
  set ST4a := updStore V4.1 gcd (adduintxx cfg (V4.1 gcd) GC_END cfg.ptrSize) with hST4a
  set ST4b := updStore ST4a gcd (setuintxx cfg (ST4a gcd) 0
    (intToU64 (V4.2.1 - rnd V2.2.1 cfg.ptrSize)) cfg.ptrSize) with hST4b
  set V5 := walkWhile (fun t => decide (t < SNOPTRBSS)) (bodyBss cfg gcb (rnd V4.2.1 cfg.ptrSize))
    ST4b (rnd V4.2.1 cfg.ptrSize) V4.2.2 with hV5
  set ST5a := updStore V5.1 gcb (adduintxx cfg (V5.1 gcb) GC_END cfg.ptrSize) with hST5a
  set ST5b := updStore ST5a gcb (setuintxx cfg (ST5a gcb) 0
    (intToU64 (V5.2.1 - rnd V4.2.1 cfg.ptrSize)) cfg.ptrSize) with hST5b
  obtain ⟨p0, he0, hd0, hr0, hf0⟩ := walk_inv (fun t => decide (t < SELFSECT))
    (fun st ds _ => (st, ds)) none P
    (fun c hc => nomatch hc)
    (fun st ds i _ => rfl) (fun st ds i j _ _ => rfl)
    st0 datap [] datap st0 0 hnd (List.nil_append datap).symm hP0
    (fun i hi => absurd hi (List.not_mem_nil i)) (fun i _ => rfl) hnzD
    (fun i hi hp => Or.inl ⟨of_decide_eq_true hp, (hmem i hi).1, rfl⟩)
  have hs1 : datap = ([] ++ p0) ++ V0.2.2 := by rw [List.nil_append]; exact he0
  have hin1 : ∀ i ∈ V0.2.2, i ∈ datap :=
    fun i hi => by rw [he0]; exact List.mem_append_right p0 hi
  have hnz1 : ∀ i ∈ V0.2.2, (st0 i).type ≠ 0 := fun i hi => hnzD i (hin1 i hi)
  have hlb14 : ∀ i ∈ V0.2.2, SELFSECT ≤ (st0 i).type :=
    rem_lb st0 SELFSECT datap _ _ hs1 hpw
      (fun x t' hx => by
        have h := of_decide_eq_false (hf0 x t' hx)
        omega)
  obtain ⟨p1, he1, hd1, hr1, hf1⟩ := walk_inv (fun t => decide (t < SNOPTRDATA))
    (bodyWElf cfg) (some SDATA) P
    (hc_some SDATA (by decide))
    (fun st ds i _ => bodyWElf_own cfg st ds i)
    (fun st ds i j hj _ => bodyWElf_oth cfg st ds i j hj)
    st0 datap ([] ++ p0) V0.2.2 V0.1 V0.2.1 hnd hs1 hP0 hd0 hr0 hnz1
    (fun i hi hp => Or.inr (Or.inl ⟨hlb14 i hi, by
      have h := of_decide_eq_true hp
      simp only [SNOPTRDATA] at h
      simp only [SBSS]
      omega, rfl⟩))
  have hs2 : datap = (([] ++ p0) ++ p1) ++ V1.2.2 := by
    rw [List.append_assoc, ← he1]; exact hs1
  have hin2 : ∀ i ∈ V1.2.2, i ∈ V0.2.2 :=
    fun i hi => by rw [he1]; exact List.mem_append_right p1 hi
  have hnz2 : ∀ i ∈ V1.2.2, (st0 i).type ≠ 0 := fun i hi => hnz1 i (hin2 i hi)
  obtain ⟨p2, he2, hd2, hr2, hf2⟩ := walk_inv (fun t => decide (t < SDATARELRO))
    (bodyNoptrdata cfg) (some SDATA) P
    (hc_some SDATA (by decide))
    (fun st ds i _ => bodyNoptrdata_own cfg st ds i)
    (fun st ds i j hj _ => bodyNoptrdata_oth cfg st ds i j hj)
    st0 datap (([] ++ p0) ++ p1) V1.2.2 V1.1 V1.2.1 hnd hs2 hP0 hd1 hr1 hnz2
    (fun i hi hp => Or.inr (Or.inl ⟨hlb14 i (hin2 i hi), by
      have h := of_decide_eq_true hp
      simp only [SDATARELRO] at h
      simp only [SBSS]
      omega, rfl⟩))
  have hs3 : datap = ((([] ++ p0) ++ p1) ++ p2) ++ V2.2.2 := by
    rw [List.append_assoc, ← he2]; exact hs2
  have hin3 : ∀ i ∈ V2.2.2, i ∈ V0.2.2 :=
    fun i hi => hin2 i (by rw [he2]; exact List.mem_append_right p2 hi)
  have hnz3 : ∀ i ∈ V2.2.2, (st0 i).type ≠ 0 := fun i hi => hnz1 i (hin3 i hi)
  obtain ⟨p4, he4, hd4, hr4, hf4⟩ := walk_inv (fun t => decide (t < SBSS))
    (bodyData cfg gcd (rnd V2.2.1 cfg.ptrSize)) (some SDATA) P
    (hc_some SDATA (by decide))
    (fun st ds i _ => bodyData_own cfg gcd (rnd V2.2.1 cfg.ptrSize) st ds i)
    (fun st ds i j hj hz => bodyData_oth cfg gcd (rnd V2.2.1 cfg.ptrSize) st ds i j hj hz)
    st0 datap ((([] ++ p0) ++ p1) ++ p2) V2.2.2 V2.1 (rnd V2.2.1 cfg.ptrSize) hnd hs3 hP0
    hd2 hr2 hnz3
    (fun i hi hp => Or.inr (Or.inl ⟨hlb14 i (hin3 i hi), of_decide_eq_true hp, rfl⟩))
  have hs5 : datap = (((([] ++ p0) ++ p1) ++ p2) ++ p4) ++ V4.2.2 := by
    rw [List.append_assoc, ← he4]; exact hs3
  have hin5 : ∀ i ∈ V4.2.2, i ∈ datap :=
    fun i hi => hin1 i (hin3 i (by rw [he4]; exact List.mem_append_right p4 hi))
  have hnz5 : ∀ i ∈ V4.2.2, (st0 i).type ≠ 0 := fun i hi => hnzD i (hin5 i hi)
  have hlb21 : ∀ i ∈ V4.2.2, SBSS ≤ (st0 i).type :=
    rem_lb st0 SBSS datap _ _ hs5 hpw
      (fun x t' hx => by
        have h := of_decide_eq_false (hf4 x t' hx)
        omega)
  have hwrap4 : ∀ j, (V4.1 j).type ≠ 0 → (ST4b j).type = (V4.1 j).type := fun j hj =>
    gcwrap_type cfg V4.1 gcd (V4.2.1 - rnd V2.2.1 cfg.ptrSize) j hj
  have hd4b : ∀ i ∈ (((([] ++ p0) ++ p1) ++ p2) ++ p4), P i ((ST4b i).type) := by
    intro i hi
    rw [hwrap4 i (hP0 i _ (hd4 i hi))]
    exact hd4 i hi
  have hr4b : ∀ i ∈ V4.2.2, (ST4b i).type = (st0 i).type := by
    intro i hi
    rw [hwrap4 i (by rw [hr4 i hi]; exact hnz5 i hi), hr4 i hi]
  obtain ⟨p5, he5, hd5, hr5, hf5⟩ := walk_inv (fun t => decide (t < SNOPTRBSS))
    (bodyBss cfg gcb (rnd V4.2.1 cfg.ptrSize)) none P
    (fun c hc => nomatch hc)
    (fun st ds i hz => bodyBss_own cfg gcb (rnd V4.2.1 cfg.ptrSize) st ds i hz)
    (fun st ds i j hj hz => bodyBss_oth cfg gcb (rnd V4.2.1 cfg.ptrSize) st ds i j hj hz)
    st0 datap (((([] ++ p0) ++ p1) ++ p2) ++ p4) V4.2.2 ST4b (rnd V4.2.1 cfg.ptrSize) hnd hs5 hP0
    hd4b hr4b hnz5
    (fun i hi _ => Or.inr (Or.inr ⟨hlb21 i hi, (hmem i (hin5 i hi)).2, rfl⟩))
  have hs6 : datap = ((((([] ++ p0) ++ p1) ++ p2) ++ p4) ++ p5) ++ V5.2.2 := by
    rw [List.append_assoc, ← he5]; exact hs5
  have hin6 : ∀ i ∈ V5.2.2, i ∈ V4.2.2 :=
    fun i hi => by rw [he5]; exact List.mem_append_right p5 hi
  have hnz6 : ∀ i ∈ V5.2.2, (st0 i).type ≠ 0 := fun i hi => hnz5 i (hin6 i hi)
  have hwrap5 : ∀ j, (V5.1 j).type ≠ 0 → (ST5b j).type = (V5.1 j).type := fun j hj =>
    gcwrap_type cfg V5.1 gcb (V5.2.1 - rnd V4.2.1 cfg.ptrSize) j hj
  have hd5b : ∀ i ∈ ((((([] ++ p0) ++ p1) ++ p2) ++ p4) ++ p5), P i ((ST5b i).type) := by
    intro i hi
    rw [hwrap5 i (hP0 i _ (hd5 i hi))]
    exact hd5 i hi
  have hr5b : ∀ i ∈ V5.2.2, (ST5b i).type = (st0 i).type := by
    intro i hi
    rw [hwrap5 i (by rw [hr5 i hi]; exact hnz6 i hi), hr5 i hi]
  obtain ⟨p6, he6, hd6, hr6, hf6⟩ := walk_inv (fun _ => true)
    (bodyNoptrbss cfg) none P
    (fun c hc => nomatch hc)
    (fun st ds i _ => bodyNoptrbss_own cfg st ds i)
    (fun st ds i j hj _ => bodyNoptrbss_oth cfg st ds i j hj)
    st0 datap ((((([] ++ p0) ++ p1) ++ p2) ++ p4) ++ p5) V5.2.2 ST5b (rnd V5.2.1 cfg.ptrSize)
    hnd hs6 hP0 hd5b hr5b hnz6
    (fun i hi _ => Or.inr (Or.inr ⟨by
      have h := hlb21 i (hin6 i hi)
      exact h, (hmem i (hin5 i (hin6 i hi))).2, rfl⟩))
  have hemp : (walkWhile (fun _ => true) (bodyNoptrbss cfg) ST5b (rnd V5.2.1 cfg.ptrSize)
      V5.2.2).2.2 = [] := by
    cases hV : (walkWhile (fun _ => true) (bodyNoptrbss cfg) ST5b (rnd V5.2.1 cfg.ptrSize)
        V5.2.2).2.2 with
    | nil => rfl
    | cons x t' =>
      have h := hf6 x t' hV
      simp at h
  have hs7 : datap = (((((([] ++ p0) ++ p1) ++ p2) ++ p4) ++ p5) ++ p6) := by
    have h := congrArg (fun l => (((((([] ++ p0) ++ p1) ++ p2) ++ p4) ++ p5) ++ p6) ++ l) hemp
    dsimp only at h
    rw [List.append_nil] at h
    rw [← h, List.append_assoc, ← he6]
    exact hs6
  intro i hi
  have him : i ∈ (((((([] ++ p0) ++ p1) ++ p2) ++ p4) ++ p5) ++ p6) := by
    rw [← hs7]; exact hi
  exact hd6 i him

/-- C5 counterexample: a reachable `BSS` symbol of size 8 survives `dodata`
with its kind still `SBSS` — not `DATA`, not `SRODATA` — while sitting in
the returned `datap` list (it was placed in `.bss`, whose loop assigns the
section and address but never the kind). -/
theorem dodata_bss_kind_counterexample :
    0 ∈ (dodata cfgC5 stC5 [0] [] 1 2).2
    ∧ ((dodata cfgC5 stC5 [0] [] 1 2).1 0).type = SBSS
    ∧ ((dodata cfgC5 stC5 [0] [] 1 2).1 0).sect = some sectBss
    ∧ SBSS ≠ SDATA ∧ SBSS ≠ SRODATA := by
  refine ⟨by decide, by decide, by decide, by decide, by decide⟩

/-- C5 (amended): after `dodata` (non-shared mode, with the dynamic-relocation
pass disabled by `-d` on a non-Windows target, over duplicate-free symbol
ids), every symbol in the returned `datap` list has kind `SDATA`, `SRODATA`,
or — for the symbols placed in `.bss`/`.noptrbss`, whose loops do not assign
kinds — its pre-layout kind in `[SBSS, SXREF)`. -/
theorem dodata_kinds (cfg : Config) (st : Store) (allsymIds textp : List Nat) (gcd gcb : Nat)
    (hnd : allsymIds.Nodup)
    (hsh : cfg.flag_shared = false)
    (hdd : cfg.debug_d = true)
    (hhw : cfg.headtype ≠ Hwindows) :
    ∀ i ∈ (dodata cfg st allsymIds textp gcd gcb).2,
      typeFinal ((dodata cfg st allsymIds textp gcd gcb).1 i).type := by
  unfold dodata
  dsimp only
  set s1 := updStore st gcd {st gcd with type := SGCDATA, reachable := true} with hs1
  set s2 := updStore s1 gcb {s1 gcb with type := SGCBSS, reachable := true} with hs2
  set s3 := updStore s2 gcd (adduintxx cfg (s2 gcd) 0 cfg.ptrSize) with hs3
  set s4 := updStore s3 gcb (adduintxx cfg (s3 gcb) 0 cfg.ptrSize) with hs4
  set dp1 := allsymIds.filter
    (fun i => (s4 i).reachable && !(s4 i).special
      && decide (STEXT < (s4 i).type) && decide ((s4 i).type < SXREF)) with hdp1
  rw [dynreloc_d cfg textp dp1 s4 hdd hhw]
  rw [if_neg (by simp [hsh] : ¬(cfg.flag_shared = true))]
  have hff : dp1.filter
      (fun i => decide (STEXT < (s4 i).type) && decide ((s4 i).type < SXREF)) = dp1 := by
    apply List.filter_eq_self.mpr
    intro i hi
    have h := (List.mem_filter.mp hi).2
    simp only [Bool.and_eq_true] at h
    simp only [Bool.and_eq_true]
    exact ⟨h.1.2, h.2⟩
  rw [hff]
  set dp := datsortBy (fun i j => datcmp (s4 i) (s4 j)) dp1 with hdp
  have hperm : dp.Perm dp1 := datsortAux_perm (fun i j => datcmp (s4 i) (s4 j)) dp1.length dp1
  have hnd1 : dp1.Nodup := List.Nodup.filter _ hnd
  have hnddp : dp.Nodup := hperm.nodup_iff.mpr hnd1
  have hmemdp : ∀ i ∈ dp, STEXT < (s4 i).type ∧ (s4 i).type < SXREF := by
    intro i hi
    have h1 : i ∈ dp1 := hperm.subset hi
    have h := (List.mem_filter.mp h1).2
    simp only [Bool.and_eq_true, decide_eq_true_eq] at h
    exact ⟨h.1.2, h.2⟩
  have hchainT : dp.Chain' (fun i j => (s4 i).type ≤ (s4 j).type) := by
    have hchain : List.Chain' (fun i j => datcmp (s4 i) (s4 j) ≤ 0) dp :=
      datsortAux_chain (fun i j => datcmp (s4 i) (s4 j))
        (fun i j h => datcmp_flip _ _ h) dp1.length dp1 (le_refl _)
    exact hchain.imp (fun a b h => datcmp_le_type _ _ h)
  have hpwdp : dp.Pairwise (fun i j => (s4 i).type ≤ (s4 j).type) := by
    haveI : IsTrans Nat (fun i j => (s4 i).type ≤ (s4 j).type) :=
      ⟨fun a b c h1 h2 => le_trans h1 h2⟩
    exact List.chain'_iff_pairwise.mp hchainT
  have tri := segdataPhase_kinds cfg gcd gcb s4 dp hsh hnddp hmemdp hpwdp
  set stA := (segdataPhase cfg gcd gcb s4 dp).1 with hstA
  have hnzA : ∀ i ∈ dp, (stA i).type ≠ 0 := by
    intro i hi
    rcases tri i hi with ⟨u1, u2, u3⟩ | ⟨u1, u2, u3⟩ | ⟨u1, u2, u3⟩ <;> rw [u3] <;>
      simp only [STEXT, SDATA, SBSS, SXREF, SELFSECT] at u1 u2 ⊢ <;> omega
  have hpwA : dp.Pairwise (fun i j => (stA i).type ≤ (stA j).type) := by
    refine List.Pairwise.imp_of_mem ?_ hpwdp
    intro a b ha hb hab
    rcases tri a ha with ⟨u1, u2, u3⟩ | ⟨u1, u2, u3⟩ | ⟨u1, u2, u3⟩ <;>
      rcases tri b hb with ⟨v1, v2, v3⟩ | ⟨v1, v2, v3⟩ | ⟨v1, v2, v3⟩ <;>
      rw [u3, v3] <;>
      simp only [STEXT, SDATA, SBSS, SXREF, SELFSECT] at u1 u2 v1 v2 hab ⊢ <;> omega
  have htext := segtextPhase_kinds cfg stA dp hnddp hnzA hpwA
  intro i hi
  rcases htext i hi with h | ⟨hpres, hge⟩
  · exact Or.inr (Or.inl h)
  · rcases tri i hi with ⟨u1, u2, u3⟩ | ⟨u1, u2, u3⟩ | ⟨u1, u2, u3⟩
    · rw [u3] at hge
      exact absurd hge (not_le.mpr u1)
    · rw [u3] at hpres
      exact Or.inl hpres
    · rw [u3] at hpres
      exact Or.inr (Or.inr ⟨by rw [hpres]; exact u1, by rw [hpres]; exact u2⟩)

/-- C5 witness: the amended dichotomy evaluated on the concrete `BSS`
scenario (the symbol ends in the `[SBSS, SXREF)` branch). -/
theorem dodata_kinds_witness :
    typeFinal ((dodata cfgC5 stC5 [0] [] 1 2).1 0).type :=
  dodata_kinds cfgC5 stC5 [0] [] 1 2 (by decide) rfl rfl (by decide) 0 (by decide)

end Linker
